import Mathlib

/-!
# Verification of the Tag-Generator sampling-data core

Shallow embedding of the core logic of the Tag-Generator repository
(`src/logic/parser.py`, `src/logic/customization_service.py`,
`src/logic/tag_generator.py`, `src/models/customization.py`,
`src/models/tag.py`), together with theorems settling the specification
claims about duplicate resolution, exceedance evaluation, depth
extraction, non-detect rewriting, tag assembly and file loading.

Modelling conventions:
* Python `float` values are modelled by `PyVal`: a rational for finite
  values plus the special values `inf`, `-inf` and `nan`, with Python's
  comparison semantics (`nan` is incomparable).  Numeric literals read
  from data are decimal, hence exactly representable as rationals.
* Python `dict`s are modelled as association lists with first-match
  lookup, in-place replacement on update and append on fresh insert,
  which reproduces insertion-order iteration.
* Python exceptions inside the parser are modelled with `Except Unit`
  (the caught exception's payload is irrelevant to control flow);
  `try/except` blocks become `match`es on the `Except` value.
-/

namespace TagGen

/-! ## Python-style primitive helpers -/

/-- ASCII whitespace characters stripped by Python's `str.strip()`. -/
def isPyWhitespace (c : Char) : Bool :=
  c = ' ' || c = '\t' || c = '\n' || c = '\r' || c = '\x0b' || c = '\x0c'

/-- Strip characters satisfying `p` from both ends of a character list. -/
def stripCharsList (p : Char → Bool) (cs : List Char) : List Char :=
  ((cs.dropWhile p).reverse.dropWhile p).reverse

/-- Python `str.strip()` (whitespace from both ends). -/
def pyStrip (s : String) : String :=
  String.mk (stripCharsList isPyWhitespace s.toList)

/-- Python `str.strip('-')`. -/
def pyStripHyphens (s : String) : String :=
  String.mk (stripCharsList (fun c => c = '-') s.toList)

/-- Helper for Python `str.find`: first index at which `sub` occurs. -/
def findSubAux (cs sub : List Char) (i : Nat) : Option Nat :=
  if sub.isPrefixOf cs then some i
  else
    match cs with
    | [] => none
    | _ :: t => findSubAux t sub (i + 1)

/-- Python `str.find`: index of the first occurrence of `sub` in `s`,
`-1` when there is none (the empty string occurs at index 0). -/
def pyFind (s sub : String) : Int :=
  match findSubAux s.toList sub.toList 0 with
  | some i => (i : Int)
  | none => -1

/-- Python `str.startswith` (also `String.startsWith`, reimplemented
structurally so the kernel can evaluate it). -/
def pyStartsWith (s pre : String) : Bool :=
  pre.toList.isPrefixOf s.toList

/-- Python `str.endswith`. -/
def pyEndsWith (s suf : String) : Bool :=
  suf.toList.reverse.isPrefixOf s.toList.reverse

/-- Helper for single-character `str.split`. -/
def splitOnCharAux (sep : Char) : List Char → List Char → List (List Char)
  | [], cur => [cur.reverse]
  | c :: rest, cur =>
    if c = sep then cur.reverse :: splitOnCharAux sep rest []
    else splitOnCharAux sep rest (c :: cur)

/-- Python `str.split(sep)` for a one-character separator. -/
def pySplitOnChar (s : String) (sep : Char) : List String :=
  (splitOnCharAux sep s.toList []).map String.mk

/-- ASCII uppercase of a string (Python `str.upper` on ASCII input). -/
def pyUpper (s : String) : String :=
  String.mk (s.toList.map Char.toUpper)

/-- Boolean membership in a string list. -/
def strMem (x : String) (l : List String) : Bool :=
  l.any (fun y => y = x)

/-- Value of a run of ASCII digit characters, most significant first. -/
def digitsToNat (cs : List Char) : Nat :=
  cs.foldl (fun n c => 10 * n + (c.toNat - '0'.toNat)) 0

/-- Python float values: finite rationals plus `-inf`, `inf`, `nan`. -/
inductive PyVal where
  | ninf : PyVal
  | fin : ℚ → PyVal
  | pinf : PyVal
  | nan : PyVal
deriving DecidableEq, Repr

/-- Python `>` on floats (`nan` compares greater-than neither way). -/
def pyGtB : PyVal → PyVal → Bool
  | PyVal.nan, _ => false
  | _, PyVal.nan => false
  | PyVal.pinf, PyVal.pinf => false
  | PyVal.pinf, _ => true
  | PyVal.ninf, _ => false
  | PyVal.fin _, PyVal.pinf => false
  | PyVal.fin _, PyVal.ninf => true
  | PyVal.fin a, PyVal.fin b => decide (b < a)

/-- Python `<` on floats. -/
def pyLtB (a b : PyVal) : Bool := pyGtB b a

/-- Python `==` on floats (`nan` equals nothing, including itself). -/
def pyEqB : PyVal → PyVal → Bool
  | PyVal.nan, _ => false
  | _, PyVal.nan => false
  | PyVal.pinf, PyVal.pinf => true
  | PyVal.ninf, PyVal.ninf => true
  | PyVal.fin a, PyVal.fin b => decide (a = b)
  | _, _ => false

/-! ### Python `float(str)` parsing

The grammar accepted by CPython's `float` constructor on ASCII input:
optional surrounding whitespace, an optional sign, then either
`inf`/`infinity`/`nan` (case-insensitive) or a decimal literal
`digits [. digits] [e [sign] digits]` (at least one mantissa digit;
underscores permitted strictly between digits). -/

/-- Parse a digit run allowing single underscores between digits.
Returns the digit characters and the rest of the input. -/
def parseDigitRun : List Char → Option (List Char × List Char)
  | c :: rest =>
    if c.isDigit then
      let (ds, rest') := parseDigitRunAux rest
      some (c :: ds, rest')
    else none
  | [] => none
where
  parseDigitRunAux : List Char → List Char × List Char
    | c :: rest =>
      if c.isDigit then
        let (ds, rest') := parseDigitRunAux rest
        (c :: ds, rest')
      else if c = '_' then
        match rest with
        | d :: rest2 =>
          if d.isDigit then
            let (ds, rest') := parseDigitRunAux rest2
            (d :: ds, rest')
          else ([], c :: rest)
        | [] => ([], [c])
    else ([], c :: rest)
    | [] => ([], [])

/-- Check the underscore-aware digit run consumed its whole input. -/
def parseAllDigits (cs : List Char) : Option (List Char) :=
  match parseDigitRun cs with
  | some (ds, []) => some ds
  | _ => none

/-- Mantissa of a Python float literal: `digits [. [digits]]` or
`. digits`.  Returns (integer digits, fraction digits, rest). -/
def parseMantissa (cs : List Char) : Option (List Char × List Char × List Char) :=
  match parseDigitRun cs with
  | some (intDs, rest) =>
    match rest with
    | '.' :: rest2 =>
      match parseDigitRun rest2 with
      | some (fracDs, rest3) => some (intDs, fracDs, rest3)
      | none => some (intDs, [], rest2)
    | _ => some (intDs, [], rest)
  | none =>
    match cs with
    | '.' :: rest2 =>
      match parseDigitRun rest2 with
      | some (fracDs, rest3) => some ([], fracDs, rest3)
      | none => none
    | _ => none

/-- Optional exponent part `e|E [sign] digits`; the digits must close the
input.  Returns the signed exponent, `none` on a malformed tail. -/
def parseExponentTail (cs : List Char) : Option Int :=
  match cs with
  | [] => some 0
  | e :: rest =>
    if e = 'e' || e = 'E' then
      match rest with
      | '+' :: rest2 => (parseAllDigits rest2).map (fun ds => (digitsToNat ds : Int))
      | '-' :: rest2 => (parseAllDigits rest2).map (fun ds => -(digitsToNat ds : Int))
      | _ => (parseAllDigits rest).map (fun ds => (digitsToNat ds : Int))
    else none

/-- Rational value of a parsed decimal literal, built from the core
`Rat` operations (which the kernel can evaluate). -/
def decimalValue (intDs fracDs : List Char) (ex : Int) : ℚ :=
  let d := digitsToNat (intDs ++ fracDs)
  match ex with
  | Int.ofNat k => Rat.divInt (Int.ofNat (d * 10 ^ k)) (Int.ofNat (10 ^ fracDs.length))
  | Int.negSucc k => Rat.divInt (Int.ofNat d) (Int.ofNat (10 ^ (fracDs.length + (k + 1))))

/-- Case-insensitive comparison with a lowercase ASCII keyword. -/
def eqKeyword (cs : List Char) (kw : String) : Bool :=
  cs.map Char.toLower = kw.toList

/-- Python `float(s)`: `none` models a raised `ValueError`. -/
def pyFloat (s : String) : Option PyVal :=
  let cs := stripCharsList isPyWhitespace s.toList
  let (neg, body) :=
    match cs with
    | '+' :: rest => (false, rest)
    | '-' :: rest => (true, rest)
    | _ => (false, cs)
  if eqKeyword body "inf" || eqKeyword body "infinity" then
    some (if neg then PyVal.ninf else PyVal.pinf)
  else if eqKeyword body "nan" then
    some PyVal.nan
  else
    match parseMantissa body with
    | none => none
    | some (intDs, fracDs, rest) =>
      if intDs.isEmpty && fracDs.isEmpty then none
      else
        match parseExponentTail rest with
        | none => none
        | some ex =>
          let q := decimalValue intDs fracDs ex
          some (PyVal.fin (if neg then q.neg else q))

/-! ### Python dicts as ordered association lists -/

/-- First-match lookup, like `dict.get` / `in`. -/
def dictLookup {κ α : Type} [DecidableEq κ] : List (κ × α) → κ → Option α
  | [], _ => none
  | kv :: rest, k => if kv.1 = k then some kv.2 else dictLookup rest k

/-- `dict[k] = v`: replace in place when the key exists, else append. -/
def dictInsert {κ α : Type} [DecidableEq κ] : List (κ × α) → κ → α → List (κ × α)
  | [], k, v => [(k, v)]
  | kv :: rest, k, v => if kv.1 = k then (k, v) :: rest else kv :: dictInsert rest k v

/-- Membership test, like `k in d`. -/
def dictContains {κ α : Type} [DecidableEq κ] (l : List (κ × α)) (k : κ) : Bool :=
  (dictLookup l k).isSome

/-- Insertion-ordered set: add an element if not already present. -/
def setAdd {α : Type} [DecidableEq α] (l : List α) (x : α) : List α :=
  if x ∈ l then l else l ++ [x]

/-! ### Python `max` and stable `sort` -/

/-- Python `max(iterable, key)`: keep the current best, replace it only
when a later element's key is strictly greater.  The first element is
the seed, so ties (and incomparable `nan` keys) keep the earlier
element. -/
def pyMaxBy {α : Type} (key : α → PyVal) (h : α) (t : List α) : α :=
  t.foldl (fun best x => if pyGtB (key x) (key best) then x else best) h

/-- Stable insertion used by `pySortBy`: an element moves past exactly
the elements strictly greater than it. -/
def sortInsert {α : Type} (lt : α → α → Bool) (x : α) : List α → List α
  | [] => [x]
  | y :: ys => if lt y x then y :: sortInsert lt x ys else x :: y :: ys

/-- Stable sort by a strict comparison, modelling Python `list.sort`. -/
def pySortBy {α : Type} (lt : α → α → Bool) (l : List α) : List α :=
  l.foldr (sortInsert lt) []

/-- String `<` as Python compares strings (lexicographic code points). -/
def strLtB (a b : String) : Bool := decide (a < b)

/-- Python `sorted` on a list of strings. -/
def pySortStr (l : List String) : List String := pySortBy strLtB l

/-! ## Customization data model (`src/models/customization.py`) -/

/-- Per-standards-column exceedance configuration. -/
structure ExceedanceConfig where
  enabled : Bool
  text_color : String
deriving DecidableEq, Repr

/-- Default `ExceedanceConfig()`: enabled, black text. -/
def defaultExceedanceConfig : ExceedanceConfig :=
  { enabled := true, text_color := "#000000" }

/-- The customization settings fields read by the embedded core logic
(analyte display-name overrides, date format, axis-header label,
per-column exceedance configs and the non-detect toggle).  The purely
visual fields (fill colors, fonts, bold flag) are never read by the
parsing / exceedance / tag-assembly code paths embedded here. -/
structure CustomizationSettings where
  analyte_mappings : List (String × String)
  date_format : String
  date_header_text : String
  exceedance_configs : List (String × ExceedanceConfig)
  show_non_detect_as_nd : Bool
deriving DecidableEq, Repr

/-- `CustomizationSettings()` defaults. -/
def defaultSettings : CustomizationSettings :=
  { analyte_mappings := []
    date_format := "YYYY-MM-DD"
    date_header_text := "Analyte"
    exceedance_configs := []
    show_non_detect_as_nd := false }

/-- `CustomizationSettings.get_exceedance_config`: returns the stored
config, creating (and storing) a default one when absent.  The second
component is the possibly-mutated settings object. -/
def get_exceedance_config (s : CustomizationSettings) (col : String) :
    ExceedanceConfig × CustomizationSettings :=
  match dictLookup s.exceedance_configs col with
  | some cfg => (cfg, s)
  | none =>
    (defaultExceedanceConfig,
     { s with exceedance_configs := s.exceedance_configs ++ [(col, defaultExceedanceConfig)] })

/-- `CustomizationSettings.get_analyte_display_name`. -/
def get_analyte_display_name (s : CustomizationSettings) (name : String) : String :=
  (dictLookup s.analyte_mappings name).getD name

/-! ## Parsed-model state (`src/logic/parser.py` attributes) -/

/-- `AnalyteData` (`src/models/tag.py`). -/
structure AnalyteData where
  name : String
  category : String
  threshold : Option PyVal
deriving DecidableEq, Repr

/-- `CategoryData` (`src/models/tag.py`). -/
structure CategoryData where
  name : String
  analytes : List AnalyteData
deriving DecidableEq, Repr

/-- Result-table key: Python uses `(loc, date, analyte)` triples or
`(loc, date, depth, analyte)` quadruples in the same dict. -/
inductive ResKey where
  | nodepth : String → String → String → ResKey
  | withdepth : String → String → String → String → ResKey
deriving DecidableEq, Repr

/-- Spreadsheet cell as loaded by pandas: empty (NaN), text, a number,
or a date rendered by `strftime('%Y-%m-%d')` as its ISO string. -/
inductive Cell where
  | empty : Cell
  | str : String → Cell
  | num : ℚ → Cell
  | date : String → Cell
deriving DecidableEq, Repr

/-- The raw grid: a rectangular list of rows of cells. -/
def Grid := List (List Cell)

/-- The mutable state of an `ExcelParser` instance. -/
structure ParserState where
  data : Option Grid
  locations : List String
  categories : List CategoryData
  analytes : List AnalyteData
  location_dates : List (String × List String)
  analyte_thresholds : List (String × Option PyVal)
  result_data : List (ResKey × List String)
  first_location_col : Option Nat
  has_sample_depth : Bool
  column_metadata : List ((String × String × String) × Nat)
  date_depth_combinations : List (String × List (String × String))
  analyte_standards : List (String × List (String × Option PyVal))
  standards_columns : List String
  standards_column_indices : List (String × Nat)

/-- `ExcelParser.__init__`. -/
def initialParserState : ParserState :=
  { data := none, locations := [], categories := [], analytes := []
    location_dates := [], analyte_thresholds := [], result_data := []
    first_location_col := none, has_sample_depth := false
    column_metadata := [], date_depth_combinations := []
    analyte_standards := [], standards_columns := []
    standards_column_indices := [] }

/-- `ExcelParser.get_standards_value`:
`self.analyte_standards.get(analyte_name, {}).get(standards_col_name)`
(a stored `None` and a missing key are indistinguishable). -/
def get_standards_value (p : ParserState) (analyte col : String) : Option PyVal :=
  match dictLookup p.analyte_standards analyte with
  | none => none
  | some m => (dictLookup m col).bind id

/-! ## Duplicate resolver (`ExcelParser._resolve_duplicate_values`) -/

/-- The qualifier alphabet, in the order the source iterates over it. -/
def qualifierList : List String := ["J", "U", "E", "N", "T", "B", "R", "L"]

/-- The source's qualifier-stripping loop: each qualifier is tested once,
in order, and removed when the (current) remainder ends with it — so
several trailing characters may be removed by one call. -/
def stripQualifiers (s : String) : String :=
  qualifierList.foldl (fun acc q => if pyEndsWith acc q then acc.dropRight 1 else acc) s

/-- Rank given to one raw value by the resolver: strip whitespace, run
the qualifier loop, then `float(...)`; a parse failure is ranked `-inf`
by the `except` branch. -/
def resolverRank (v : String) : PyVal :=
  match pyFloat (stripQualifiers (pyStrip v)) with
  | some x => x
  | none => PyVal.ninf

/-- `ExcelParser._resolve_duplicate_values`. -/
def resolve_duplicate_values (values : List String) : String :=
  match values with
  | [] => ""
  | [v] => v
  | v :: rest =>
    let numericValues := (v :: rest).map (fun w => (resolverRank w, w))
    (pyMaxBy Prod.fst (numericValues.headD (PyVal.ninf, "")) numericValues.tail).2

/-- `ExcelParser.get_result_value`: build the key (depth-qualified only
when the flag is set and `depth` is a truthy string), look it up, and
resolve duplicates. -/
def get_result_value (p : ParserState) (loc date analyte : String)
    (depth : Option String) : Option String :=
  let key :=
    if p.has_sample_depth && (match depth with | some d => d ≠ "" | none => false) then
      ResKey.withdepth loc date (depth.getD "") analyte
    else
      ResKey.nodepth loc date analyte
  match dictLookup p.result_data key with
  | none => none
  | some vs => some (resolve_duplicate_values vs)

/-! ## Exceedance engine (`CustomizationService.check_exceedance`) -/

/-- The auto-enable fallback loop: for each detected standards column,
fetch (or lazily create) its stored config and put it into the local
`enabled_configs` dict.  Returns the dict and the (possibly mutated)
settings. -/
def fallbackEnableLoop (cols : List String)
    (acc : List (String × ExceedanceConfig)) (s : CustomizationSettings) :
    List (String × ExceedanceConfig) × CustomizationSettings :=
  match cols with
  | [] => (acc, s)
  | c :: rest =>
    let r := get_exceedance_config s c
    fallbackEnableLoop rest (dictInsert acc c r.1) r.2

/-- Build the `exceeded_standards` dict: enabled columns whose standard
value for the analyte exists and is strictly below the value. -/
def collectExceeded (p : ParserState) (analyte : String) (value : PyVal)
    (enabledConfigs : List (String × ExceedanceConfig)) : List (String × PyVal) :=
  enabledConfigs.foldl
    (fun acc kc =>
      match get_standards_value p analyte kc.1 with
      | none => acc
      | some std => if pyGtB value std then dictInsert acc kc.1 std else acc)
    []

/-- `max(exceeded_standards.values())` (callers ensure non-emptiness;
the empty-list default is never reached). -/
def maxExceededValue (exceeded : List (String × PyVal)) : PyVal :=
  match exceeded with
  | [] => PyVal.ninf
  | kv :: rest => (pyMaxBy id kv.2 (rest.map Prod.snd))

/-- The dominant-column search: walk `standards_columns` in order and
keep the *last* exceeded column whose standard equals the maximum; if
that finds nothing, fall back to the first matching entry of the
`exceeded_standards` dict itself. -/
def selectDominant (standardsColumns : List String)
    (exceeded : List (String × PyVal)) (maxV : PyVal) : Option String :=
  let fromCols := standardsColumns.foldl
    (fun acc c =>
      match dictLookup exceeded c with
      | some v => if pyEqB v maxV then some c else acc
      | none => acc)
    none
  match fromCols with
  | some c => some c
  | none =>
    exceeded.foldl
      (fun acc kv =>
        match acc with
        | some _ => acc
        | none => if pyEqB kv.2 maxV then some kv.1 else acc)
      none

/-- `CustomizationService.check_exceedance`.  Returns the
`(is_exceeded, highest_exceeded_col)` pair together with the settings
after the call (the fallback path lazily creates missing configs). -/
def check_exceedance (s : CustomizationSettings) (analyte : String)
    (value : PyVal) (p : ParserState) :
    (Bool × Option String) × CustomizationSettings :=
  let allConfigs := s.exceedance_configs
  let enabledConfigs0 := allConfigs.filter (fun kc => kc.2.enabled)
  let standardsColumns := p.standards_columns
  let fb :=
    if enabledConfigs0.isEmpty && !standardsColumns.isEmpty then
      fallbackEnableLoop standardsColumns enabledConfigs0 s
    else (enabledConfigs0, s)
  let enabledConfigs := fb.1
  let s1 := fb.2
  let exceeded := collectExceeded p analyte value enabledConfigs
  if exceeded.isEmpty then ((false, none), s1)
  else
    let maxV := maxExceededValue exceeded
    ((true, selectDominant standardsColumns exceeded maxV), s1)

/-! ## Non-detect rewrite (`CustomizationService.process_non_detect_value`) -/

/-- `CustomizationService.process_non_detect_value`. -/
def process_non_detect_value (s : CustomizationSettings) (value : String) : String :=
  if !s.show_non_detect_as_nd then value
  else if pyStartsWith (pyStrip value) "<" && pyEndsWith (pyStrip value) "U" then "ND"
  else value

/-! ## Date formatting (`CustomizationService.format_date`)

`format_date` parses its input with `strptime('%Y-%m-%d')` (exactly four
year digits, month and day with or without a leading zero, full-string
match, calendar-valid day) and re-renders it through a fixed format map.
Years are rendered unpadded by `%Y` (all real inputs have four digits);
month names use the C locale's English names. -/

/-- Days in a month, Gregorian calendar. -/
def daysInMonth (y m : Nat) : Nat :=
  if m = 2 then
    if y % 4 = 0 && (y % 100 ≠ 0 || y % 400 = 0) then 29 else 28
  else if m = 4 || m = 6 || m = 9 || m = 11 then 30
  else 31

/-- Parse `%m` / `%d` in `strptime` style: try the two-digit
alternatives first, then a single nonzero digit, backtracking into the
continuation like the regex engine does. -/
def parseTwoOrOneDigit (lo hi : Nat) (cs : List Char)
    (k : Nat → List Char → Option (Nat × Nat × Nat)) :
    Option (Nat × Nat × Nat) :=
  match cs with
  | a :: b :: rest =>
    if a.isDigit && b.isDigit then
      let v := digitsToNat [a, b]
      if lo ≤ v && v ≤ hi && v ≠ 0 then
        match k v rest with
        | some r => some r
        | none =>
          let v1 := digitsToNat [a]
          if 1 ≤ v1 then k v1 (b :: rest) else none
      else
        let v1 := digitsToNat [a]
        if 1 ≤ v1 then k v1 (b :: rest) else none
    else if a.isDigit then
      let v1 := digitsToNat [a]
      if 1 ≤ v1 then k v1 (b :: rest) else none
    else none
  | [a] =>
    if a.isDigit && 1 ≤ digitsToNat [a] then k (digitsToNat [a]) [] else none
  | [] => none

/-- `datetime.strptime(s, '%Y-%m-%d')`, as year/month/day numbers;
`none` models the raised `ValueError`. -/
def strptimeISO (s : String) : Option (Nat × Nat × Nat) :=
  match s.toList with
  | y1 :: y2 :: y3 :: y4 :: '-' :: rest =>
    if y1.isDigit && y2.isDigit && y3.isDigit && y4.isDigit then
      let y := digitsToNat [y1, y2, y3, y4]
      let afterMonth := fun (m : Nat) (cs : List Char) =>
        match cs with
        | '-' :: rest2 =>
          parseTwoOrOneDigit 1 31 rest2 (fun d cs2 =>
            if cs2.isEmpty then some (y, m, d) else none)
        | _ => none
      match parseTwoOrOneDigit 1 12 rest afterMonth with
      | some (y, m, d) =>
        if 1 ≤ y && m ≥ 1 && m ≤ 12 && d ≥ 1 && d ≤ daysInMonth y m then
          some (y, m, d)
        else none
      | none => none
    else none
  | _ => none

/-- English month names (C locale), abbreviated. -/
def monthAbbrev (m : Nat) : String :=
  (["Jan", "Feb", "Mar", "Apr", "May", "Jun",
    "Jul", "Aug", "Sep", "Oct", "Nov", "Dec"].getD (m - 1) "")

/-- English month names (C locale), full. -/
def monthFull (m : Nat) : String :=
  (["January", "February", "March", "April", "May", "June",
    "July", "August", "September", "October", "November", "December"].getD (m - 1) "")

/-- Zero-pad a number to two digits, as `%m` / `%d` render. -/
def pad2 (n : Nat) : String :=
  if n < 10 then "0" ++ toString n else toString n

/-- Render the `strftime` directives used by the source's format map. -/
def strftimeRender : List Char → Nat → Nat → Nat → String
  | [], _, _, _ => ""
  | '%' :: c :: rest, y, m, d =>
    (if c = 'Y' then toString y
     else if c = 'm' then pad2 m
     else if c = 'd' then pad2 d
     else if c = 'b' then monthAbbrev m
     else if c = 'B' then monthFull m
     else String.mk ['%', c]) ++ strftimeRender rest y m d
  | c :: rest, y, m, d => String.mk [c] ++ strftimeRender rest y m d

/-- The source's `format_map`, with `.get(key, "%Y-%m-%d")` semantics. -/
def formatMapGet (key : String) : String :=
  (dictLookup
    [("YYYY-MM-DD", "%Y-%m-%d"), ("MM/DD/YYYY", "%m/%d/%Y"),
     ("DD/MM/YYYY", "%d/%m/%Y"), ("MM-DD-YYYY", "%m-%d-%Y"),
     ("DD-MM-YYYY", "%d-%m-%Y"), ("MMM DD, YYYY", "%b %d, %Y"),
     ("MMMM DD, YYYY", "%B %d, %Y"), ("YYYY/MM/DD", "%Y/%m/%d"),
     ("MMMM, YYYY", "%B, %Y"), ("MMM, YYYY", "%b, %Y")] key).getD "%Y-%m-%d"

/-- `CustomizationService.format_date`. -/
def format_date (s : CustomizationSettings) (dateStr : String) : String :=
  if dateStr = "" then dateStr
  else
    match strptimeISO dateStr with
    | none => dateStr
    | some (y, m, d) => strftimeRender (formatMapGet s.date_format).toList y m d

/-! ## Depth extraction (`ExcelParser`) -/

/-- Structural helper for `normDigitRuns`: `run` is the pending run of
digit characters (in order); on leaving a run its value is rendered in
decimal, which strips the leading zeros. -/
def normDigitRunsAux (run : List Char) : List Char → List Char
  | [] => if run.isEmpty then [] else (toString (digitsToNat run)).toList
  | c :: rest =>
    if c.isDigit then normDigitRunsAux (run ++ [c]) rest
    else
      (if run.isEmpty then [] else (toString (digitsToNat run)).toList)
        ++ c :: normDigitRunsAux [] rest

/-- Replace every run of digits by its value's decimal form, stripping
leading zeros (helper for `_normalize_location_id_for_matching`). -/
def normDigitRuns (cs : List Char) : List Char :=
  normDigitRunsAux [] cs

/-- `ExcelParser._normalize_location_id_for_matching`: strip leading
zeros from every run of digits in the location ID. -/
def normalize_location_id_for_matching (locationId : String) : String :=
  String.mk (normDigitRuns locationId.toList)

/-- Trim a trailing `".0"` from every hyphen-delimited segment of the
depth substring (single segments included). -/
def trimDepthSegments (after : String) : String :=
  if after.toList.any (fun c => c = '-') then
    let parts := (pySplitOnChar after '-').map (fun part =>
      let p := pyStrip part
      if pyEndsWith p ".0" then p.dropRight 2 else p)
    String.intercalate "-" parts
  else if pyEndsWith after ".0" then after.dropRight 2
  else after

/-- `ExcelParser._extract_depth_from_sample_name`. -/
def extract_depth_from_sample_name (sampleName locationId : String) : Option String :=
  if sampleName = "" || locationId = "" then none
  else
    let locationIdx := pyFind sampleName locationId
    let found :=
      if locationIdx = -1 then
        let normalized := normalize_location_id_for_matching locationId
        let idx2 := pyFind sampleName normalized
        if idx2 = -1 then none else some (idx2, normalized)
      else some (locationIdx, locationId)
    match found with
    | none => none
    | some (idx, matched) =>
      let afterLocation := sampleName.drop (idx.toNat + matched.length)
      let afterLocation := pyStrip (pyStripHyphens afterLocation)
      if afterLocation = "" then none
      else some (trimDepthSegments afterLocation)

/-! ## Tag data model (`src/models/tag.py`) -/

/-- One row of a tag: parallel lists of cell values, highlight flags and
exceeded-standards labels. -/
structure TagRow where
  analyte_name : String
  values : List String
  is_highlighted : List Bool
  exceeded_standards_cols : List (Option String)
deriving DecidableEq, Repr

/-- The `TagRow` constructor including `__post_init__`: when the labels
list is empty or its length differs from `values`, it is reset to
`None`s of matching length. -/
def mkTagRow (name : String) (values : List String) (highlighted : List Bool)
    (exceeded : List (Option String)) : TagRow :=
  { analyte_name := name, values := values, is_highlighted := highlighted
    exceeded_standards_cols :=
      if exceeded.isEmpty || exceeded.length ≠ values.length then
        List.replicate values.length none
      else exceeded }

/-- A complete tag for one location. -/
structure Tag where
  location_id : String
  dates : List String
  header_row : TagRow
  analyte_rows : List TagRow
deriving DecidableEq, Repr

/-- `Tag.get_all_rows`. -/
def Tag.get_all_rows (t : Tag) : List TagRow :=
  t.header_row :: t.analyte_rows

/-! ## Tag generator (`src/logic/tag_generator.py`)

The generator holds the parser and the customization service; every
`check_exceedance` call may mutate the stored settings, so the embedded
functions thread the `CustomizationSettings` value explicitly and return
it alongside their result. -/

/-- Append a date entry to a location's bucket
(`location_dates[location_id].append(...)`; the key always exists). -/
def bucketAppend (l : List (String × List String)) (k : String) (v : String) :
    List (String × List String) :=
  match l with
  | [] => []
  | kv :: rest =>
    if kv.1 = k then (kv.1, kv.2 ++ [v]) :: rest else kv :: bucketAppend rest k v

/-- `TagGenerator._group_dates_by_location`. -/
def group_dates_by_location (selectedLocations selectedDates : List String) :
    List (String × List String) :=
  let locationDates :=
    selectedLocations.foldl (fun acc loc => dictInsert acc loc ([] : List String)) []
  let locationDates := selectedDates.foldl
    (fun acc dateItem =>
      if pyStartsWith dateItem "DATE:" then
        let parts := pySplitOnChar dateItem ':'
        if parts.length ≥ 3 then
          let locationId := parts.getD 1 ""
          let dateWithDepth :=
            if parts.length = 4 then parts.getD 2 "" ++ ":" ++ parts.getD 3 ""
            else parts.getD 2 ""
          if strMem locationId selectedLocations then
            bucketAppend acc locationId dateWithDepth
          else acc
        else acc
      else acc)
    locationDates
  locationDates.map (fun kv => (kv.1, pySortStr kv.2))

/-- Python `s.split(":", 1)`: split at the first colon only. -/
def splitOnceColon (s : String) : String × String :=
  match findSubAux s.toList [':'] 0 with
  | none => (s, "")
  | some i => (String.mk (s.toList.take i), String.mk (s.toList.drop (i + 1)))

/-- `_get_depth_sort_key`'s numeric component: the leading
`\d+\.?\d*` token of the stripped depth as a float, `inf` otherwise. -/
def depthSortKeyNum (depth : String) : PyVal :=
  if depth = "" then PyVal.pinf
  else
    let cs := (pyStrip depth).toList
    let ds := cs.takeWhile Char.isDigit
    if ds.isEmpty then PyVal.pinf
    else
      match cs.dropWhile Char.isDigit with
      | '.' :: r2 =>
        let fs := r2.takeWhile Char.isDigit
        PyVal.fin (decimalValue ds fs 0)
      | _ => PyVal.fin (Rat.divInt (Int.ofNat (digitsToNat ds)) 1)

/-- Python `<` on the `(date, (depth_number, depth_string))` sort keys
used for date-depth blocks (tuples compare lexicographically). -/
def dateDepthKeyLt (a b : String × Option String) : Bool :=
  let da := match a.2 with | some d => if d ≠ "" then d else "" | none => ""
  let db := match b.2 with | some d => if d ≠ "" then d else "" | none => ""
  if a.1 ≠ b.1 then strLtB a.1 b.1
  else
    let na := depthSortKeyNum da
    let nb := depthSortKeyNum db
    if !(pyEqB na nb) then pyLtB na nb
    else strLtB da db

/-- The per-cell work shared by both layouts once a stored result value
exists: non-detect rewrite, numeric parse, exceedance check.  Returns
the display value, highlight flag, dominant-standard label and the
settings after the call. -/
def evaluateResultCell (s : CustomizationSettings) (p : ParserState)
    (analyte : String) (rawValue : String) :
    (String × Bool × Option String) × CustomizationSettings :=
  let value := process_non_detect_value s rawValue
  match pyFloat value with
  | none => ((value, false, none), s)
  | some v =>
    let r := check_exceedance s analyte v p
    ((value, r.1.1, r.1.2), r.2)

/-- One date column of an analyte row in the non-depth layout: append
the resolved value, highlight flag and label to the three lists. -/
def withoutDepthCell (p : ParserState) (loc analyte : String)
    (st : (List String × List Bool × List (Option String)) × CustomizationSettings)
    (date : String) :
    (List String × List Bool × List (Option String)) × CustomizationSettings :=
  let values := st.1.1
  let highlighted := st.1.2.1
  let cols := st.1.2.2
  let s := st.2
  match get_result_value p loc date analyte none with
  | none => ((values ++ [""], highlighted ++ [false], cols ++ [none]), s)
  | some rawValue =>
    let r := evaluateResultCell s p analyte rawValue
    ((values ++ [r.1.1], highlighted ++ [r.1.2.1], cols ++ [r.1.2.2]), r.2)

/-- One analyte row of the non-depth layout: resolve the display name
and fold the date columns. -/
def withoutDepthAnalyteRow (p : ParserState) (locationId : String)
    (dates : List String) (acc : List TagRow × CustomizationSettings)
    (analyteName : String) : List TagRow × CustomizationSettings :=
  let displayName := get_analyte_display_name acc.2 analyteName
  let r := dates.foldl
    (withoutDepthCell p locationId analyteName)
    (([displayName], [false], [none]), acc.2)
  (acc.1 ++ [mkTagRow analyteName r.1.1 r.1.2.1 r.1.2.2], r.2)

/-- `TagGenerator._create_tag_without_sample_depth`. -/
def create_tag_without_sample_depth (s : CustomizationSettings) (p : ParserState)
    (locationId : String) (dates : List String) (selectedAnalytes : List String) :
    Tag × CustomizationSettings :=
  let totalColumns := 1 + dates.length
  let headerValues := locationId :: List.replicate (totalColumns - 1) ""
  let headerRow := mkTagRow "" headerValues
    (List.replicate headerValues.length false)
    (List.replicate headerValues.length none)
  let formattedDates := dates.map (format_date s)
  let dateValues := s.date_header_text :: formattedDates
  let dateRow := mkTagRow "" dateValues
    (List.replicate dateValues.length false)
    (List.replicate dateValues.length none)
  let rowsResult := selectedAnalytes.foldl
    (withoutDepthAnalyteRow p locationId dates) ([], s)
  ({ location_id := locationId, dates := dates, header_row := headerRow
     analyte_rows := dateRow :: rowsResult.1 }, rowsResult.2)

/-- One analyte row of a date-depth block (two cells). -/
def withDepthAnalyteRow (p : ParserState) (loc date : String) (depth : Option String)
    (acc : List TagRow × CustomizationSettings) (analyteName : String) :
    List TagRow × CustomizationSettings :=
  let displayName := get_analyte_display_name acc.2 analyteName
  match get_result_value p loc date analyteName depth with
  | none => (acc.1 ++ [mkTagRow analyteName [displayName, ""] [false, false] [none, none]], acc.2)
  | some rawValue =>
    let r := evaluateResultCell acc.2 p analyteName rawValue
    (acc.1 ++ [mkTagRow analyteName [displayName, r.1.1] [false, r.1.2.1]
        [none, r.1.2.2]], r.2)

/-- One date-depth block: location row, date row, optional interval row,
then the analyte rows. -/
def withDepthBlock (p : ParserState) (loc : String) (selectedAnalytes : List String)
    (acc : List TagRow × CustomizationSettings) (pair : String × Option String) :
    List TagRow × CustomizationSettings :=
  let date := pair.1
  let depth := pair.2
  let formattedDate := format_date acc.2 date
  let locationRow := mkTagRow "" ["Location ID:", loc] [false, false] [none, none]
  let dateRow := mkTagRow "" ["Date Sampled:", formattedDate] [false, false] [none, none]
  let rows := acc.1 ++ [locationRow, dateRow]
  let rows :=
    match depth with
    | some d => if d ≠ "" then rows ++ [mkTagRow "" ["Sample interval:", d] [false, false] [none, none]] else rows
    | none => rows
  selectedAnalytes.foldl (withDepthAnalyteRow p loc date depth) (rows, acc.2)

/-- `TagGenerator._create_tag_with_sample_depth`. -/
def create_tag_with_sample_depth (s : CustomizationSettings) (p : ParserState)
    (locationId : String) (dates : List String) (selectedAnalytes : List String) :
    Tag × CustomizationSettings :=
  let dateDepthPairs := dates.map (fun entry =>
    if entry.toList.any (fun c => c = ':') then
      ((splitOnceColon entry).1, some (splitOnceColon entry).2)
    else (entry, (none : Option String)))
  let dateDepthPairs := pySortBy dateDepthKeyLt dateDepthPairs
  let blocksResult := dateDepthPairs.foldl
    (withDepthBlock p locationId selectedAnalytes) ([], s)
  let headerRow := blocksResult.1.headD (mkTagRow "" [locationId] [false] [none])
  ({ location_id := locationId, dates := dates, header_row := headerRow
     analyte_rows := blocksResult.1.tail }, blocksResult.2)

/-- `TagGenerator._create_tag_for_location`. -/
def create_tag_for_location (s : CustomizationSettings) (p : ParserState)
    (locationId : String) (dates : List String) (selectedAnalytes : List String) :
    Tag × CustomizationSettings :=
  if p.has_sample_depth then
    create_tag_with_sample_depth s p locationId dates selectedAnalytes
  else
    create_tag_without_sample_depth s p locationId dates selectedAnalytes

/-- One location of the `generate_tags` loop: skip empty date lists,
otherwise build the tag and thread the settings. -/
def generateTagsStep (p : ParserState) (selectedAnalytes : List String)
    (acc : List Tag × CustomizationSettings) (kv : String × List String) :
    List Tag × CustomizationSettings :=
  if kv.2.isEmpty then acc
  else
    let r := create_tag_for_location acc.2 p kv.1 kv.2 selectedAnalytes
    (acc.1 ++ [r.1], r.2)

/-- `TagGenerator.generate_tags`.  Returns the tags and the settings
after the run. -/
def generate_tags (s : CustomizationSettings) (p : ParserState)
    (selectedLocations selectedAnalytes selectedDates : List String) :
    List Tag × CustomizationSettings :=
  let locationDates := group_dates_by_location selectedLocations selectedDates
  locationDates.foldl (generateTagsStep p selectedAnalytes) ([], s)

/-! ## File loading (`ExcelParser.load_file` and its phases)

`load_file` wraps the whole pipeline in `try/except` and returns a
boolean; cell accesses out of the frame's bounds raise `IndexError`.
Each phase below returns its (possibly partially mutated) state together
with a success flag, so that the state reached when an exception is
caught is exactly the state the Python object is left in. -/

/-- Number of columns of the (rectangular) frame. -/
def gridNcols (g : Grid) : Nat := (g.headD []).length

/-- `self.data.iloc[r, c]`: `error` models the raised `IndexError`. -/
def ilocE (g : Grid) (r c : Nat) : Except Unit Cell :=
  if r < g.length && c < gridNcols g then
    Except.ok ((g.getD r []).getD c Cell.empty)
  else Except.error ()

/-- `pd.notna` on a cell. -/
def Cell.notna : Cell → Bool
  | Cell.empty => false
  | _ => true

/-- Decimal rendering of a rational whose denominator divides a power of
ten (every numeric spreadsheet literal does); mirrors `str(float)` for
such values.  Other denominators fall back to the raw rational text. -/
def qDecimalRepr (q : ℚ) : String :=
  if q.den = 1 then toString q.num ++ ".0"
  else
    match (List.range 64).find? (fun k => (10 : ℕ) ^ k % q.den = 0) with
    | none => toString q
    | some k =>
      let scaled := (q.num.natAbs * ((10 : ℕ) ^ k / q.den))
      let sign := if q.num < 0 then "-" else ""
      let digits := toString scaled
      let digits :=
        if digits.length ≤ k then String.mk (List.replicate (k + 1 - digits.length) '0') ++ digits
        else digits
      let intPart := digits.dropRight k
      let fracPart := digits.takeRight k
      let fracPart := String.mk (fracPart.toList.reverse.dropWhile (fun c => c = '0')).reverse
      let fracPart := if fracPart = "" then "0" else fracPart
      sign ++ intPart ++ "." ++ fracPart

/-- `str(cell)`.  A `Timestamp` cell renders with a time suffix; the
embedded code only ever stringifies date cells through the
`strftime` branch, so the suffix never reaches the model. -/
def Cell.toStr : Cell → String
  | Cell.empty => "nan"
  | Cell.str s => s
  | Cell.num q => qDecimalRepr q
  | Cell.date iso => iso ++ " 00:00:00"

/-- `float(cell)`: numbers pass through, strings are parsed, empty cells
are `NaN` floats, and `Timestamp`s raise (`none`). -/
def Cell.toFloat : Cell → Option PyVal
  | Cell.empty => some PyVal.nan
  | Cell.str s => pyFloat s
  | Cell.num q => some (PyVal.fin q)
  | Cell.date _ => none

/-- The date string for a column: `strftime('%Y-%m-%d')` when the cell
has a `strftime` attribute (a date), else `str(...)`. -/
def cellDateString : Cell → String
  | Cell.date iso => iso
  | c => c.toStr

/-- The skip vocabulary of `_find_first_location_column`, uppercased. -/
def skipValuesUpper : List String :=
  ["AWQS", "ANALYTE", "THRESHOLD", "SAMPLE NAME", "LOCATION ID",
   "LOCATION NAME", "DATE", "SAMPLE DATE", "PARENT SAMPLE NAME"]

/-- Column scan of `_find_first_location_column`. -/
def findFirstLocationColLoop (g : Grid) : List Nat → Except Unit Nat
  | [] => Except.ok 3
  | c :: rest => do
    let cell ← ilocE g 0 c
    if cell.notna then
      let cellStr := pyStrip cell.toStr
      if strMem (pyUpper cellStr) skipValuesUpper then
        findFirstLocationColLoop g rest
      else if cellStr ≠ "" then
        if g.length > 3 then do
          let dateCell ← ilocE g 3 c
          if dateCell.notna then Except.ok c
          else findFirstLocationColLoop g rest
        else findFirstLocationColLoop g rest
      else findFirstLocationColLoop g rest
    else findFirstLocationColLoop g rest

/-- `ExcelParser._find_first_location_column` (default column 3). -/
def find_first_location_column (g : Grid) : Except Unit Nat :=
  findFirstLocationColLoop g (List.range (gridNcols g))

/-- Add a value to the per-key set of a dict-of-sets. -/
def setDictAdd {α : Type} [DecidableEq α] (d : List (String × List α))
    (k : String) (v : α) : List (String × List α) :=
  match dictLookup d k with
  | some s => dictInsert d k (setAdd s v)
  | none => d ++ [(k, [v])]

/-- Accumulator of the single-pass location/date scan. -/
structure PldAcc where
  uniq : List String
  datesDict : List (String × List String)
  ddDict : List (String × List (String × String))
  st : ParserState

/-- Column loop of `_parse_locations_and_dates`.  The locals live in the
accumulator; `column_metadata` is written straight into the state, which
is what survives when a later column access raises. -/
def pldLoop (g : Grid) : List Nat → PldAcc → PldAcc × Bool
  | [], acc => (acc, true)
  | c :: rest, acc =>
    match ilocE g 0 c with
    | Except.error _ => (acc, false)
    | Except.ok cell =>
      if cell.notna && pyStrip cell.toStr ≠ "" then
        let loc := pyStrip cell.toStr
        let acc := { acc with uniq := setAdd acc.uniq loc }
        match ilocE g 3 c with
        | Except.error _ => (acc, false)
        | Except.ok dateCell =>
          if dateCell.notna then
            let dateStr := cellDateString dateCell
            let acc := { acc with datesDict := setDictAdd acc.datesDict loc dateStr }
            if acc.st.has_sample_depth && g.length > 1 then
              match ilocE g 1 c with
              | Except.error _ => (acc, false)
              | Except.ok sampleCell =>
                if sampleCell.notna then
                  let sampleName := pyStrip sampleCell.toStr
                  match extract_depth_from_sample_name sampleName loc with
                  | some depth =>
                    if depth ≠ "" then
                      let meta := dictInsert acc.st.column_metadata (loc, dateStr, depth) c
                      let acc :=
                        { acc with
                          st := { acc.st with column_metadata := meta }
                          ddDict := setDictAdd acc.ddDict loc (dateStr, depth) }
                      pldLoop g rest acc
                    else pldLoop g rest acc
                  | none => pldLoop g rest acc
                else pldLoop g rest acc
            else pldLoop g rest acc
          else pldLoop g rest acc
      else pldLoop g rest acc

/-- Python `<` on `(date, depth)` combination sort keys. -/
def comboLt (a b : String × String) : Bool :=
  dateDepthKeyLt (a.1, some a.2) (b.1, some b.2)

/-- `ExcelParser._parse_locations_and_dates`. -/
def parse_locations_and_dates (g : Grid) (st : ParserState) : ParserState × Bool :=
  let st := { st with locations := [], location_dates := []
                      column_metadata := [], date_depth_combinations := [] }
  let flc := st.first_location_col.getD 3
  let (acc, ok) := pldLoop g (List.range' flc (gridNcols g - flc))
    { uniq := [], datesDict := [], ddDict := [], st := st }
  if !ok then (acc.st, false)
  else
    let locations := pySortStr acc.uniq
    let st := { acc.st with locations := locations }
    let st := locations.foldl
      (fun st loc =>
        let st := { st with location_dates := st.location_dates ++
          [(loc, pySortStr ((dictLookup acc.datesDict loc).getD []))] }
        if st.has_sample_depth && dictContains acc.ddDict loc then
          { st with date_depth_combinations := st.date_depth_combinations ++
            [(loc, pySortBy comboLt ((dictLookup acc.ddDict loc).getD []))] }
        else st)
      st
    (st, true)

/-- Numeric-content probe of `_detect_standards_columns`: do any of the
first analyte rows hold a float-parseable value in this column? -/
def detectNumericLoop (g : Grid) (c : Nat) : List Nat → Except Unit Bool
  | [] => Except.ok false
  | r :: rest => do
    let cell ← ilocE g r c
    if cell.notna then
      match cell.toFloat with
      | some _ => Except.ok true
      | none => detectNumericLoop g c rest
    else detectNumericLoop g c rest

/-- Column loop of `_detect_standards_columns`. -/
def detectColsLoop (g : Grid) (headerRowIdx : Nat) :
    List Nat → ParserState → ParserState × Bool
  | [], st => (st, true)
  | c :: rest, st =>
    let headerValue : Except Unit (Option Cell) :=
      if g.length > headerRowIdx then (ilocE g headerRowIdx c).map some
      else Except.ok none
    match headerValue with
    | Except.error _ => (st, false)
    | Except.ok hv =>
      let name :=
        match hv with
        | some cell =>
          if cell.notna && pyStrip cell.toStr ≠ "" then pyStrip cell.toStr
          else "Standard " ++ toString c
        | none => "Standard " ++ toString c
      let hasNumeric : Except Unit Bool :=
        if g.length > 5 then
          detectNumericLoop g c (List.range' 5 (min g.length 20 - 5))
        else Except.ok false
      match hasNumeric with
      | Except.error _ => (st, false)
      | Except.ok hn =>
        if hn then
          detectColsLoop g headerRowIdx rest
            { st with standards_columns := st.standards_columns ++ [name]
                      standards_column_indices :=
                        dictInsert st.standards_column_indices name c }
        else detectColsLoop g headerRowIdx rest st

/-- `ExcelParser._detect_standards_columns`. -/
def detect_standards_columns (g : Grid) (st : ParserState) : ParserState × Bool :=
  let st := { st with standards_columns := [], standards_column_indices := [] }
  let flc := st.first_location_col.getD 3
  let headerRowIdx : Except Unit Nat :=
    if g.length > 4 then do
      let c00 ← ilocE g 4 0
      if c00.notna && pyFind c00.toStr "Analyte" ≥ 0 then Except.ok 4
      else Except.ok 0
    else Except.ok 4
  match headerRowIdx with
  | Except.error _ => (st, false)
  | Except.ok hri => detectColsLoop g hri (List.range' 1 (flc - 1)) st

/-- Depth lookup of `_store_analyte_results`: scan `column_metadata` for
the matching (location, date, column) entry. -/
def findMetaDepth (meta : List ((String × String × String) × Nat))
    (loc dateStr : String) (c : Nat) : Option String :=
  match meta.find? (fun e => e.1.1 = loc && e.1.2.1 = dateStr && e.2 = c) with
  | some e => some e.1.2.2
  | none => none

/-- Append a result string at a key, creating the list if needed. -/
def resultAppend (rd : List (ResKey × List String)) (k : ResKey) (v : String) :
    List (ResKey × List String) :=
  match dictLookup rd k with
  | some l => dictInsert rd k (l ++ [v])
  | none => rd ++ [(k, [v])]

/-- Column loop of `_store_analyte_results`. -/
def storeResultsLoop (g : Grid) (row : Nat) (analyte : String) :
    List Nat → ParserState → ParserState × Bool
  | [], st => (st, true)
  | c :: rest, st =>
    match ilocE g 0 c with
    | Except.error _ => (st, false)
    | Except.ok cell =>
      if cell.notna && pyStrip cell.toStr ≠ "" then
        let loc := pyStrip cell.toStr
        match ilocE g 3 c with
        | Except.error _ => (st, false)
        | Except.ok dateCell =>
          if dateCell.notna then
            let dateStr := cellDateString dateCell
            let depth : Option String :=
              if st.has_sample_depth then findMetaDepth st.column_metadata loc dateStr c
              else none
            match ilocE g row c with
            | Except.error _ => (st, false)
            | Except.ok resultCell =>
              if resultCell.notna then
                let resultStr := pyStrip resultCell.toStr
                let key :=
                  if st.has_sample_depth &&
                      (match depth with | some d => d ≠ "" | none => false) then
                    ResKey.withdepth loc dateStr (depth.getD "") analyte
                  else ResKey.nodepth loc dateStr analyte
                storeResultsLoop g row analyte rest
                  { st with result_data := resultAppend st.result_data key resultStr }
              else storeResultsLoop g row analyte rest st
          else storeResultsLoop g row analyte rest st
      else storeResultsLoop g row analyte rest st

/-- `ExcelParser._store_analyte_results`. -/
def store_analyte_results (g : Grid) (st : ParserState) (row : Nat)
    (analyte : String) : ParserState × Bool :=
  let flc := st.first_location_col.getD 3
  storeResultsLoop g row analyte (List.range' flc (gridNcols g - flc)) st

/-- Category-row test: are all columns after the first empty? -/
def otherColsEmptyLoop (g : Grid) (row : Nat) : List Nat → Except Unit Bool
  | [] => Except.ok true
  | c :: rest => do
    let cell ← ilocE g row c
    if cell.notna && pyStrip cell.toStr ≠ "" then Except.ok false
    else otherColsEmptyLoop g row rest

/-- Per-analyte standards read of `_parse_categories_and_analytes`:
fills the analyte's standards dict and computes the legacy threshold. -/
def analyteStandardsLoop (g : Grid) (row : Nat) (analyte : String) :
    List String → Option PyVal → ParserState → (Option PyVal × ParserState) × Bool
  | [], threshold, st => ((threshold, st), true)
  | scol :: rest, threshold, st =>
    let colIdx := (dictLookup st.standards_column_indices scol).getD 0
    match ilocE g row colIdx with
    | Except.error _ => ((threshold, st), false)
    | Except.ok cell =>
      let numericValue := if cell.notna then cell.toFloat else none
      let m := (dictLookup st.analyte_standards analyte).getD []
      let newStandards := dictInsert st.analyte_standards analyte (dictInsert m scol numericValue)
      let st := { st with analyte_standards := newStandards }
      let threshold :=
        if threshold.isNone && numericValue.isSome then numericValue else threshold
      analyteStandardsLoop g row analyte rest threshold st

/-- Append an analyte to the most recently opened category. -/
def appendToLastCategory (cats : List CategoryData) (a : AnalyteData) :
    List CategoryData :=
  match cats with
  | [] => []
  | [c] => [{ c with analytes := c.analytes ++ [a] }]
  | c :: rest => c :: appendToLastCategory rest a

/-- Row loop of `_parse_categories_and_analytes`. -/
def pcaLoop (g : Grid) : List Nat → Option String → ParserState → ParserState × Bool
  | [], _, st => (st, true)
  | row :: rest, currentCategory, st =>
    match ilocE g row 0 with
    | Except.error _ => (st, false)
    | Except.ok c0 =>
      if c0.notna && pyStrip c0.toStr = "Notes:" then (st, true)
      else if c0.notna && pyStrip c0.toStr ≠ "" then
        match otherColsEmptyLoop g row (List.range' 1 (gridNcols g - 1)) with
        | Except.error _ => (st, false)
        | Except.ok otherEmpty =>
          if otherEmpty then
            let name := pyStrip c0.toStr
            pcaLoop g rest (some name)
              { st with categories := st.categories ++ [{ name := name, analytes := [] }] }
          else
            match currentCategory with
            | none => pcaLoop g rest currentCategory st
            | some cat =>
              let analyteName := pyStrip c0.toStr
              let newStandards := dictInsert st.analyte_standards analyteName []
              let st := { st with analyte_standards := newStandards }
              match analyteStandardsLoop g row analyteName st.standards_columns none st with
              | ((_, st), false) => (st, false)
              | ((threshold, st), true) =>
                let analyteData : AnalyteData :=
                  { name := analyteName, category := cat, threshold := threshold }
                let st := { st with
                  analytes := st.analytes ++ [analyteData]
                  analyte_thresholds := dictInsert st.analyte_thresholds analyteName threshold
                  categories := appendToLastCategory st.categories analyteData }
                match store_analyte_results g st row analyteName with
                | (st, false) => (st, false)
                | (st, true) => pcaLoop g rest currentCategory st
      else pcaLoop g rest currentCategory st

/-- `ExcelParser._parse_categories_and_analytes`.  Note that
`result_data` is *not* reset here (nor anywhere during a reload). -/
def parse_categories_and_analytes (g : Grid) (st : ParserState) : ParserState × Bool :=
  let st := { st with categories := [], analytes := []
                      analyte_thresholds := [], analyte_standards := [] }
  match detect_standards_columns g st with
  | (st, false) => (st, false)
  | (st, true) =>
    pcaLoop g (List.range' 5 (g.length - 5)) none st

/-- `ExcelParser.load_file`.  The read result is `none` when the file is
unreadable in every attempted encoding (the read raises before `data` is
assigned); otherwise the parsed grid.  All exceptions are caught and
reported as `false`. -/
def load_file (st : ParserState) (readResult : Option Grid) : ParserState × Bool :=
  match readResult with
  | none => (st, false)
  | some g =>
    let st := { st with data := some g }
    match find_first_location_column g with
    | Except.error _ => (st, false)
    | Except.ok flc =>
      let st := { st with first_location_col := some flc }
      match parse_locations_and_dates g st with
      | (st, false) => (st, false)
      | (st, true) =>
        match parse_categories_and_analytes g st with
        | (st, false) => (st, false)
        | (st, true) => (st, true)

/-! ## Reference definitions written from the specification's wording

These are deliberately *not* transcriptions of the source: they follow
the sentences of the claims under scrutiny, so that the transcribed
functions can be compared against them. -/

/-- The qualifier alphabet as characters. -/
def qualifierChars : List Char := ['J', 'U', 'E', 'N', 'T', 'B', 'R', 'L']

/-- Claim C2's ranking step, taken literally: strip **at most one**
trailing character drawn from the qualifier alphabet. -/
def claimStripOneQualifier (v : String) : String :=
  let s := pyStrip v
  match s.toList.reverse with
  | c :: _ => if qualifierChars.contains c then s.dropRight 1 else s
  | [] => s

/-- Claim C2's rank: parse the remainder as a float, rank `-inf` on
failure. -/
def claimRankOne (v : String) : PyVal :=
  match pyFloat (claimStripOneQualifier v) with
  | some x => x
  | none => PyVal.ninf

/-- Return the first-seen entry whose key no later entry strictly
exceeds (the "highest rank, ties broken first-seen" selection). -/
def argmaxFirstBy {α : Type} (key : α → PyVal) : α → List α → α
  | best, [] => best
  | best, x :: rest =>
    if pyGtB (key x) (key best) then argmaxFirstBy key x rest
    else argmaxFirstBy key best rest

/-- Claim C2's reference resolver, as the claim states it. -/
def claimReferenceResolve (values : List String) : String :=
  match values with
  | [] => ""
  | [v] => v
  | v :: rest => argmaxFirstBy claimRankOne v rest

/-- Amended C2 rank: strip whitespace, then test the qualifiers once
each in the fixed order J,U,E,N,T,B,R,L, removing each when the current
remainder ends with it (so several trailing characters can go); then
parse as a float, ranking failures `-inf`. -/
def amendedRank (v : String) : PyVal :=
  match pyFloat (stripQualifiers (pyStrip v)) with
  | some x => x
  | none => PyVal.ninf

/-- Amended C2 reference resolver: rank each value with `amendedRank`
and return the original string of the highest-ranked entry, ties (and
incomparable `NaN` ranks) broken in favor of the first-seen entry. -/
def amendedReferenceResolve (values : List String) : String :=
  match values with
  | [] => ""
  | [v] => v
  | v :: rest => argmaxFirstBy amendedRank v rest

/-- Claim C7's depth formula, taken literally: the substring after the
first occurrence of the location ID (exact, else leading-zero
normalized), stripped of surrounding hyphens (and whitespace), with a
trailing ".0" trimmed from each hyphen-delimited segment; null only
when the ID is not found at all. -/
def claimDepthFormula (sampleName locationId : String) : Option String :=
  let idx := pyFind sampleName locationId
  if idx ≠ -1 then
    some (trimDepthSegments
      (pyStrip (pyStripHyphens (sampleName.drop (idx.toNat + locationId.length)))))
  else
    let normalized := normalize_location_id_for_matching locationId
    let idx2 := pyFind sampleName normalized
    if idx2 ≠ -1 then
      some (trimDepthSegments
        (pyStrip (pyStripHyphens (sampleName.drop (idx2.toNat + normalized.length)))))
    else none

/-- Amended C7 depth formula: as the claim states it, except that an
empty sample name or location ID yields null, and so does an occurrence
whose remaining substring is empty once hyphens and whitespace are
stripped. -/
def amendedDepthFormula (sampleName locationId : String) : Option String :=
  if sampleName = "" || locationId = "" then none
  else
    let idx := pyFind sampleName locationId
    let found :=
      if idx ≠ -1 then some (idx, locationId)
      else
        let normalized := normalize_location_id_for_matching locationId
        let idx2 := pyFind sampleName normalized
        if idx2 ≠ -1 then some (idx2, normalized) else none
    match found with
    | none => none
    | some (i, matched) =>
      let stripped := pyStrip (pyStripHyphens (sampleName.drop (i.toNat + matched.length)))
      if stripped = "" then none else some (trimDepthSegments stripped)

/-! ## Concrete states used by witnesses and counterexamples -/

/-- A parser state with two standards columns and one analyte whose
standards are 1 (column A) and 100 (column B). -/
def exParserAB : ParserState :=
  { initialParserState with
    standards_columns := ["A", "B"]
    analyte_standards := [("X", [("A", some (PyVal.fin 1)), ("B", some (PyVal.fin 100))])]
    result_data := [(ResKey.nodepth "L1" "2024-01-15" "X", ["50"])] }

/-- Settings in which the only stored config (column A) is disabled. -/
def exSettingsDisabledA : CustomizationSettings :=
  { defaultSettings with
    exceedance_configs := [("A", { enabled := false, text_color := "#000000" })] }

/-- A parser state with a single standards column S (standard 1 for
analyte A). -/
def exParserS : ParserState :=
  { initialParserState with
    standards_columns := ["S"]
    analyte_standards := [("A", [("S", some (PyVal.fin 1))])] }

/-- Settings in which the single stored config (column S) is disabled —
the "every standards column disabled" configuration state. -/
def exSettingsDisabledS : CustomizationSettings :=
  { defaultSettings with
    exceedance_configs := [("S", { enabled := false, text_color := "#000000" })] }

/-- Settings with S disabled but a second column T enabled. -/
def exSettingsSdisTen : CustomizationSettings :=
  { defaultSettings with
    exceedance_configs :=
      [("S", { enabled := false, text_color := "#000000" }),
       ("T", { enabled := true, text_color := "#000000" })] }

/-- A parser state with standards columns S and T for analyte A. -/
def exParserST : ParserState :=
  { initialParserState with
    standards_columns := ["S", "T"]
    analyte_standards :=
      [("A", [("S", some (PyVal.fin 1)), ("T", some (PyVal.fin 2))])] }

/-- Settings with two enabled columns sharing the standard value 10. -/
def exSettingsEnabledAB : CustomizationSettings :=
  { defaultSettings with
    exceedance_configs :=
      [("A", defaultExceedanceConfig), ("B", defaultExceedanceConfig)] }

/-- A parser state where analyte X has the tied standards A = B = 10. -/
def exParserTie : ParserState :=
  { initialParserState with
    standards_columns := ["A", "B"]
    analyte_standards := [("X", [("A", some (PyVal.fin 10)), ("B", some (PyVal.fin 10))])] }

/-- A grid whose layout breaks the convention: only two columns, so the
default first-location column 3 makes the standards scan read column 2
out of bounds — after column 1 ("S1") has already been recorded. -/
def exBadGrid : Grid :=
  [[Cell.str "Analyte", Cell.str "Threshold"],
   [Cell.empty, Cell.empty],
   [Cell.empty, Cell.empty],
   [Cell.empty, Cell.empty],
   [Cell.str "Analyte", Cell.str "S1"],
   [Cell.str "Lead", Cell.str "5"]]

/-- The end-to-end example grid of the specification: one location
MW-1 sampled 2024-01-15, one EPA standards column, analyte Lead with
standard 5.0 and result 7.2. -/
def exGoodGrid : Grid :=
  [[Cell.str "Analyte", Cell.str "EPA", Cell.empty, Cell.str "MW-1"],
   [Cell.empty, Cell.empty, Cell.empty, Cell.empty],
   [Cell.empty, Cell.empty, Cell.empty, Cell.empty],
   [Cell.empty, Cell.empty, Cell.empty, Cell.str "2024-01-15"],
   [Cell.str "Analyte", Cell.str "EPA", Cell.empty, Cell.empty],
   [Cell.str "Metals", Cell.empty, Cell.empty, Cell.empty],
   [Cell.str "Lead", Cell.num 5, Cell.empty, Cell.str "7.2"],
   [Cell.str "Notes:", Cell.empty, Cell.empty, Cell.empty]]

/-! ## Stability of the exceedance engine (claims C5 and C10)

`check_exceedance` mutates the settings only through the lazy fallback,
which appends default configs for standards columns that have no stored
entry.  The definitions below name the settings state reached after one
fallback, the fields the fallback never touches, and the per-row
parallel-array invariant. -/

/-- The exceedance decision of `check_exceedance` as a function of the
final `enabled_configs` dict (the part after the fallback resolution). -/
def checkCore (p : ParserState) (analyte : String) (value : PyVal)
    (enabledConfigs : List (String × ExceedanceConfig)) : Bool × Option String :=
  let exceeded := collectExceeded p analyte value enabledConfigs
  if exceeded.isEmpty then (false, none)
  else (true, selectDominant p.standards_columns exceeded (maxExceededValue exceeded))

/-- The settings state after one `check_exceedance` call: when the
fallback fires it lazily stores a default config per fresh detected
column (first occurrences only); otherwise nothing changes. -/
def postFallbackSettings (s : CustomizationSettings) (p : ParserState) :
    CustomizationSettings :=
  if (s.exceedance_configs.filter (fun kc => kc.2.enabled)).isEmpty
      && !p.standards_columns.isEmpty then
    (fallbackEnableLoop p.standards_columns
      (s.exceedance_configs.filter (fun kc => kc.2.enabled)) s).2
  else s

/-- Equality of every settings field except the exceedance configs. -/
def sameNonConfig (a b : CustomizationSettings) : Prop :=
  a.analyte_mappings = b.analyte_mappings ∧
  a.date_format = b.date_format ∧
  a.date_header_text = b.date_header_text ∧
  a.show_non_detect_as_nd = b.show_non_detect_as_nd

/-- The states in which lazy config creation cannot change later
exceedance decisions: either some stored config is enabled (the
fallback never fires), or no detected standards column has a stored
config at all (the fallback creates the same default set every time). -/
def lazyStable (s : CustomizationSettings) (p : ParserState) : Prop :=
  (∃ kc ∈ s.exceedance_configs, kc.2.enabled = true) ∨
  (∀ c ∈ p.standards_columns, dictLookup s.exceedance_configs c = none)

/-- Settings reachable while tag generation runs from start state `s`:
the start state itself or the one post-fallback state. -/
def settingsRel (s : CustomizationSettings) (p : ParserState)
    (t : CustomizationSettings) : Prop :=
  t = s ∨ t = postFallbackSettings s p

/-- The parallel-array invariant of one tag row. -/
def rowOK (r : TagRow) : Prop :=
  r.values.length = r.is_highlighted.length ∧
  r.values.length = r.exceeded_standards_cols.length

/-- An empty row, used as a `headD` default when sampling concrete
outputs. -/
def emptyRow : TagRow := mkTagRow "" [] [] []

/-- An empty tag, used as a `headD` default when sampling concrete
outputs. -/
def emptyTag : Tag :=
  { location_id := "", dates := [], header_row := emptyRow, analyte_rows := [] }

/-! # Supporting lemmas -/

theorem pyGtB_irrefl (x : PyVal) : pyGtB x x = false := by
  cases x <;> simp [pyGtB]

theorem pyGtB_asymm {x y : PyVal} (h : pyGtB x y = true) : pyGtB y x = false := by
  cases x <;> cases y <;> simp_all [pyGtB]
  linarith

theorem pyGtB_nan_left (y : PyVal) : pyGtB PyVal.nan y = false := by
  cases y <;> simp [pyGtB]

theorem pyGtB_nan_right (x : PyVal) : pyGtB x PyVal.nan = false := by
  cases x <;> simp [pyGtB]

theorem pyGtB_total_of_ne {x y : PyVal} (hx : x ≠ PyVal.nan) (hy : y ≠ PyVal.nan)
    (hne : x ≠ y) : pyGtB x y = true ∨ pyGtB y x = true := by
  cases x <;> cases y <;> simp_all [pyGtB]
  exact fun h => hne h.symm

theorem pyMaxBy_cons {α : Type} (key : α → PyVal) (h x : α) (t : List α) :
    pyMaxBy key h (x :: t) = pyMaxBy key (if pyGtB (key x) (key h) then x else h) t := rfl

/-- The transcribed resolver's pair fold agrees with the reference's
direct argmax selection. -/
theorem pyMaxBy_pairs_eq_argmax (rank : String → PyVal) :
    ∀ (l : List String) (b : String),
      (pyMaxBy Prod.fst (rank b, b) (l.map (fun x => (rank x, x)))).2 =
        argmaxFirstBy rank b l := by
  intro l
  induction l with
  | nil => intro b; rfl
  | cons x t ih =>
    intro b
    rw [List.map_cons, pyMaxBy_cons, argmaxFirstBy]
    dsimp only
    by_cases hgt : pyGtB (rank x) (rank b) = true
    · rw [if_pos hgt, if_pos hgt]
      exact ih x
    · rw [if_neg hgt, if_neg hgt]
      exact ih b

/-! # Claim theorems -/

/-- C2 (counterexample): the resolver is *not* the claimed reference.
On `["5UJ", "3"]` the source strips both trailing qualifiers of
`"5UJ"` (first `J`, then `U`), parses `5.0` and returns `"5UJ"`,
while the claimed at-most-one-qualifier reference ranks `"5UJ"` as
`-inf` (since `"5U"` does not parse) and returns `"3"`. -/
theorem c2_counterexample :
    resolve_duplicate_values ["5UJ", "3"] = "5UJ" ∧
    claimReferenceResolve ["5UJ", "3"] = "3" ∧
    resolve_duplicate_values ["5UJ", "3"] ≠ claimReferenceResolve ["5UJ", "3"] := by
  refine ⟨by decide, by decide, by decide⟩

/-- C2 (amended): `_resolve_duplicate_values` equals the reference
definition in which the ranking strips trailing qualifiers by testing
each of J,U,E,N,T,B,R,L once, in that order, removing each when the
current remainder ends with it (so several characters may be removed),
ranks parse failures `-inf`, and returns the original string of the
highest-ranked entry with ties (and incomparable NaN ranks) kept at the
first-seen entry; the empty list gives `""` and a singleton gives its
element. -/
theorem c2_resolve_matches_reference :
    ∀ values, resolve_duplicate_values values = amendedReferenceResolve values := by
  intro values
  match values with
  | [] => rfl
  | [v] => rfl
  | v :: w :: rest =>
    have hrank : amendedRank = resolverRank := rfl
    simp only [resolve_duplicate_values, amendedReferenceResolve, hrank,
      List.map_cons, List.headD_cons, List.tail_cons]
    exact pyMaxBy_pairs_eq_argmax resolverRank (w :: rest) v

/-- C8: with the toggle on, `process_non_detect_value` rewrites exactly
the strings whose trimmed form starts with `<` and ends with `U` to
`"ND"` (so `"< 5.0 U"` becomes `"ND"` and `"5.0 J"` is unchanged), and
with the toggle off it is the identity. -/
theorem c8_non_detect_rewrite :
    (∀ (s : CustomizationSettings) (v : String),
      process_non_detect_value s v =
        if s.show_non_detect_as_nd &&
            (pyStartsWith (pyStrip v) "<" && pyEndsWith (pyStrip v) "U") then "ND" else v) ∧
    process_non_detect_value { defaultSettings with show_non_detect_as_nd := true } "< 5.0 U"
      = "ND" ∧
    process_non_detect_value { defaultSettings with show_non_detect_as_nd := true } "5.0 J"
      = "5.0 J" ∧
    (∀ v, process_non_detect_value defaultSettings v = v) := by
  refine ⟨?_, by decide, by decide, fun v => rfl⟩
  intro s v
  unfold process_non_detect_value
  cases hnd : s.show_non_detect_as_nd <;>
    cases hsw : pyStartsWith (pyStrip v) "<" <;>
      cases hew : pyEndsWith (pyStrip v) "U" <;>
        simp [hnd, hsw, hew]

/-- C9 (counterexample): order independence fails for distinct ranks
when one rank is NaN.  `"nan"` parses to the float NaN (no qualifier is
stripped: the lowercase `n` is not in the alphabet), whose comparisons
are all false, so `max` keeps whichever entry came first. -/
theorem c9_counterexample :
    resolverRank "nan" = PyVal.nan ∧
    resolverRank "3" = PyVal.fin 3 ∧
    resolverRank "nan" ≠ resolverRank "3" ∧
    resolve_duplicate_values ["nan", "3"] = "nan" ∧
    resolve_duplicate_values ["3", "nan"] = "3" ∧
    resolve_duplicate_values ["nan", "3"] ≠ resolve_duplicate_values ["3", "nan"] := by
  refine ⟨by decide, by decide, by decide, by decide, by decide, by decide⟩

/-- C9 (amended): for two raw values whose resolver ranks are distinct
and neither of which is NaN, resolution is independent of input order. -/
theorem c9_resolve_commutative (a b : String)
    (hne : resolverRank a ≠ resolverRank b)
    (ha : resolverRank a ≠ PyVal.nan) (hb : resolverRank b ≠ PyVal.nan) :
    resolve_duplicate_values [a, b] = resolve_duplicate_values [b, a] := by
  have pair : ∀ u v : String, resolve_duplicate_values [u, v] =
      if pyGtB (resolverRank v) (resolverRank u) then v else u := by
    intro u v
    simp only [resolve_duplicate_values, List.map_cons, List.map_nil, List.headD_cons,
      List.tail_cons]
    rw [pyMaxBy_cons]
    rw [show ∀ (h : PyVal × String), pyMaxBy Prod.fst h [] = h from fun h => rfl]
    dsimp only
    rw [apply_ite Prod.snd]
  rw [pair a b, pair b a]
  rcases pyGtB_total_of_ne ha hb hne with h | h
  · rw [if_pos h, if_neg (by simp [pyGtB_asymm h])]
  · rw [if_pos h, if_neg (by simp [pyGtB_asymm h])]

/-- C9 (witness): the amendment at a concrete pair: ranks 2 and 3 are
distinct non-NaN, and both orders resolve to `"3J"`. -/
theorem c9_witness :
    resolverRank "2" ≠ resolverRank "3J" ∧
    resolve_duplicate_values ["2", "3J"] = resolve_duplicate_values ["3J", "2"] ∧
    resolve_duplicate_values ["2", "3J"] = "3J" := by
  refine ⟨by decide, ?_, by decide⟩
  exact c9_resolve_commutative "2" "3J" (by decide) (by decide) (by decide)

/-- C7 (counterexample): the claim's formula says the extracted depth
*is* the trimmed substring after the occurrence, with null only for a
missing occurrence; but when nothing remains after the location ID the
source returns null while the formula yields the empty string. -/
theorem c7_counterexample :
    extract_depth_from_sample_name "SB-A01" "SB-A01" = none ∧
    claimDepthFormula "SB-A01" "SB-A01" = some "" ∧
    extract_depth_from_sample_name "SB-A01" "SB-A01" ≠
      claimDepthFormula "SB-A01" "SB-A01" := by
  refine ⟨by decide, by decide, by decide⟩

/-- C7 (amended): depth extraction equals the claim's formula amended
so that an empty sample name or location ID yields null, and so does an
occurrence whose remaining substring is empty after stripping hyphens
and whitespace; and the specification's example extracts `"6-9"` from
`"915239-SB-A1-6.0-9.0"` for location `"SB-A01"` via the
leading-zero-normalized retry. -/
theorem c7_extract_depth_matches_formula :
    (∀ sampleName locationId,
      extract_depth_from_sample_name sampleName locationId =
        amendedDepthFormula sampleName locationId) ∧
    extract_depth_from_sample_name "915239-SB-A1-6.0-9.0" "SB-A01" = some "6-9" := by
  refine ⟨?_, by decide⟩
  intro s l
  by_cases hs : s = ""
  · simp [extract_depth_from_sample_name, amendedDepthFormula, hs]
  by_cases hl : l = ""
  · simp [extract_depth_from_sample_name, amendedDepthFormula, hs, hl]
  by_cases h1 : pyFind s l = -1
  · by_cases h2 : pyFind s (normalize_location_id_for_matching l) = -1
    · simp [extract_depth_from_sample_name, amendedDepthFormula, hs, hl, h1, h2]
    · simp [extract_depth_from_sample_name, amendedDepthFormula, hs, hl, h1, h2]
  · simp [extract_depth_from_sample_name, amendedDepthFormula, hs, hl, h1]

/-- C6 (counterexample): a malformed grid (two columns, no location
column, so the standards scan runs into an out-of-bounds read) makes
`load_file` fail — but the observable model still exposes the standards
column recorded before the exception, contradicting "no partial parsed
model is exposed". -/
theorem c6_counterexample :
    (load_file initialParserState (some exBadGrid)).2 = false ∧
    (load_file initialParserState (some exBadGrid)).1.standards_columns ≠ [] := by
  refine ⟨by decide, by decide⟩

/-- C6 (amended): a failed load is reported by a `false` return value
rather than a raised `ParseError`.  When the file itself is unreadable,
nothing of the failed attempt is stored; but when the grid is readable
and parsing fails midway, partial model data from the failed attempt can
remain observable (here, the detected standards column "S1"). -/
theorem c6_load_failure_semantics :
    (∀ st : ParserState, load_file st none = (st, false)) ∧
    (load_file initialParserState (some exBadGrid)).2 = false ∧
    (load_file initialParserState (some exBadGrid)).1.standards_columns = ["S1"] := by
  refine ⟨fun _ => rfl, by decide, by decide⟩

/-! ### Association-list lemmas -/

theorem dictLookup_append_left {κ α : Type} [DecidableEq κ]
    {l₁ : List (κ × α)} (l₂ : List (κ × α)) {k : κ} {v : α}
    (h : dictLookup l₁ k = some v) : dictLookup (l₁ ++ l₂) k = some v := by
  induction l₁ with
  | nil => simp [dictLookup] at h
  | cons kv rest ih =>
    rw [List.cons_append, dictLookup]
    rw [dictLookup] at h
    by_cases hk : kv.1 = k
    · rw [if_pos hk] at h ⊢; exact h
    · rw [if_neg hk] at h ⊢; exact ih h

theorem dictLookup_append_right {κ α : Type} [DecidableEq κ]
    {l₁ : List (κ × α)} (l₂ : List (κ × α)) {k : κ}
    (h : dictLookup l₁ k = none) : dictLookup (l₁ ++ l₂) k = dictLookup l₂ k := by
  induction l₁ with
  | nil => simp
  | cons kv rest ih =>
    rw [List.cons_append, dictLookup]
    rw [dictLookup] at h
    by_cases hk : kv.1 = k
    · rw [if_pos hk] at h; exact absurd h (by simp)
    · rw [if_neg hk] at h ⊢; exact ih h

theorem dictLookup_append_none {κ α : Type} [DecidableEq κ]
    {l₁ l₂ : List (κ × α)} {k : κ}
    (h : dictLookup (l₁ ++ l₂) k = none) : dictLookup l₁ k = none := by
  cases hl : dictLookup l₁ k with
  | none => rfl
  | some v => rw [dictLookup_append_left l₂ hl] at h; exact h

theorem dictLookup_singleton {κ α : Type} [DecidableEq κ] (k₀ k : κ) (v : α) :
    dictLookup [(k₀, v)] k = if k₀ = k then some v else none := rfl

/-- Step equation for `fallbackEnableLoop` when the config exists. -/
theorem fallbackEnableLoop_cons_some {c0 : String} {rest : List String}
    {acc : List (String × ExceedanceConfig)} {s : CustomizationSettings}
    {cfg : ExceedanceConfig} (h : dictLookup s.exceedance_configs c0 = some cfg) :
    fallbackEnableLoop (c0 :: rest) acc s =
      fallbackEnableLoop rest (dictInsert acc c0 cfg) s := by
  rw [fallbackEnableLoop]
  simp [get_exceedance_config, h]

/-- Step equation for `fallbackEnableLoop` when the config is missing:
the default config is stored (a settings mutation) and used. -/
theorem fallbackEnableLoop_cons_none {c0 : String} {rest : List String}
    {acc : List (String × ExceedanceConfig)} {s : CustomizationSettings}
    (h : dictLookup s.exceedance_configs c0 = none) :
    fallbackEnableLoop (c0 :: rest) acc s =
      fallbackEnableLoop rest (dictInsert acc c0 defaultExceedanceConfig)
        { s with exceedance_configs :=
            s.exceedance_configs ++ [(c0, defaultExceedanceConfig)] } := by
  rw [fallbackEnableLoop]
  simp [get_exceedance_config, h]

/-- Frame property of the fallback loop: any config present before is
looked up unchanged afterwards; new entries appear only for scanned
columns that had no config, and hold the default. -/
theorem fallbackEnableLoop_lookup (cols : List String) :
    ∀ (acc : List (String × ExceedanceConfig)) (s : CustomizationSettings) (c : String),
      dictLookup ((fallbackEnableLoop cols acc s).2).exceedance_configs c =
          dictLookup s.exceedance_configs c ∨
        (dictLookup s.exceedance_configs c = none ∧ c ∈ cols ∧
          dictLookup ((fallbackEnableLoop cols acc s).2).exceedance_configs c =
            some defaultExceedanceConfig) := by
  induction cols with
  | nil => intro acc s c; exact Or.inl rfl
  | cons c0 rest ih =>
    intro acc s c
    cases hlk : dictLookup s.exceedance_configs c0 with
    | some cfg =>
      rw [fallbackEnableLoop_cons_some hlk]
      rcases ih (dictInsert acc c0 cfg) s c with h | h
      · exact Or.inl h
      · exact Or.inr ⟨h.1, List.mem_cons_of_mem _ h.2.1, h.2.2⟩
    | none =>
      rw [fallbackEnableLoop_cons_none hlk]
      rcases ih (dictInsert acc c0 defaultExceedanceConfig)
          { s with exceedance_configs :=
              s.exceedance_configs ++ [(c0, defaultExceedanceConfig)] } c with h | h
      · replace h : dictLookup (fallbackEnableLoop rest
            (dictInsert acc c0 defaultExceedanceConfig)
            { s with exceedance_configs :=
                s.exceedance_configs ++ [(c0, defaultExceedanceConfig)] }).2.exceedance_configs c =
            dictLookup (s.exceedance_configs ++ [(c0, defaultExceedanceConfig)]) c := h
        cases hc : dictLookup s.exceedance_configs c with
        | some v => exact Or.inl (by rw [h, dictLookup_append_left _ hc])
        | none =>
          by_cases hcc : c0 = c
          · refine Or.inr ⟨rfl, by rw [← hcc]; exact List.mem_cons_self c0 rest, ?_⟩
            rw [h, dictLookup_append_right _ hc, dictLookup_singleton, if_pos hcc]
          · refine Or.inl ?_
            rw [h, dictLookup_append_right _ hc, dictLookup_singleton, if_neg hcc]
      · refine Or.inr ⟨?_, List.mem_cons_of_mem _ h.2.1, h.2.2⟩
        replace h : dictLookup (s.exceedance_configs ++ [(c0, defaultExceedanceConfig)]) c =
            none := h.1
        exact dictLookup_append_none h

/-- The settings returned by `check_exceedance`: unchanged unless the
auto-enable fallback ran, in which case they are the fallback loop's
settings. -/
theorem check_exceedance_settings (s : CustomizationSettings) (analyte : String)
    (value : PyVal) (p : ParserState) :
    (check_exceedance s analyte value p).2 =
      if (s.exceedance_configs.filter (fun kc => kc.2.enabled)).isEmpty &&
          !p.standards_columns.isEmpty then
        (fallbackEnableLoop p.standards_columns
          (s.exceedance_configs.filter (fun kc => kc.2.enabled)) s).2
      else s := by
  unfold check_exceedance
  by_cases hfb : (s.exceedance_configs.filter (fun kc => kc.2.enabled)).isEmpty &&
      !p.standards_columns.isEmpty
  · rw [if_pos hfb]
    dsimp only
    rw [if_pos hfb]
    split <;> rfl
  · rw [if_neg hfb]
    dsimp only
    rw [if_neg hfb]
    split <;> rfl

/-- C4 (counterexample): the fallback path *does* mutate the stored
configuration.  With no stored configs and a detected standards column
`S`, a single `check_exceedance` call stores a default config for `S`. -/
theorem c4_counterexample :
    defaultSettings.exceedance_configs = [] ∧
    (check_exceedance defaultSettings "A" (PyVal.fin 0) exParserS).2.exceedance_configs =
      [("S", defaultExceedanceConfig)] ∧
    (check_exceedance defaultSettings "A" (PyVal.fin 0) exParserS).2.exceedance_configs ≠
      defaultSettings.exceedance_configs := by
  refine ⟨rfl, by decide, by decide⟩

/-- C4 (amended): `check_exceedance` never changes or removes an
existing config entry (enabled flags and text colors of configured
columns are looked up unchanged after the call); the only possible
mutation is the lazy creation of default-valued entries (enabled, black
text) for detected standards columns that had no stored config when the
fallback ran. -/
theorem c4_config_frame (s : CustomizationSettings) (analyte : String)
    (value : PyVal) (p : ParserState) (c : String) :
    dictLookup ((check_exceedance s analyte value p).2).exceedance_configs c =
        dictLookup s.exceedance_configs c ∨
      (dictLookup s.exceedance_configs c = none ∧ c ∈ p.standards_columns ∧
        dictLookup ((check_exceedance s analyte value p).2).exceedance_configs c =
          some defaultExceedanceConfig) := by
  rw [check_exceedance_settings]
  by_cases hfb : (s.exceedance_configs.filter (fun kc => kc.2.enabled)).isEmpty &&
      !p.standards_columns.isEmpty
  · rw [if_pos hfb]
    exact fallbackEnableLoop_lookup p.standards_columns _ s c
  · rw [if_neg hfb]
    exact Or.inl rfl

/-! ### Lemmas on the exceedance evaluation -/

theorem dictLookup_mem {κ α : Type} [DecidableEq κ] {l : List (κ × α)} {k : κ} {v : α}
    (h : dictLookup l k = some v) : (k, v) ∈ l := by
  induction l with
  | nil => simp [dictLookup] at h
  | cons kv rest ih =>
    rw [dictLookup] at h
    by_cases hk : kv.1 = k
    · rw [if_pos hk] at h
      refine List.mem_cons.mpr (Or.inl ?_)
      cases kv
      injection h with h2
      simp_all
    · rw [if_neg hk] at h
      exact List.mem_cons_of_mem _ (ih h)

theorem dictLookup_of_mem_nodup {κ α : Type} [DecidableEq κ] {l : List (κ × α)}
    {k : κ} {v : α} (hnd : (l.map Prod.fst).Nodup) (h : (k, v) ∈ l) :
    dictLookup l k = some v := by
  induction l with
  | nil => simp at h
  | cons kv rest ih =>
    rw [List.map_cons, List.nodup_cons] at hnd
    rcases List.mem_cons.mp h with h0 | h0
    · rw [← h0, dictLookup, if_pos rfl]
    · rw [dictLookup]
      by_cases hk : kv.1 = k
      · exact absurd (hk ▸ (List.mem_map.mpr ⟨(k, v), h0, rfl⟩)) hnd.1
      · rw [if_neg hk]
        exact ih hnd.2 h0

theorem mem_dictInsert {κ α : Type} [DecidableEq κ] {l : List (κ × α)}
    {k k' : κ} {v v' : α} (h : (k, v) ∈ dictInsert l k' v') :
    (k, v) ∈ l ∨ k = k' := by
  induction l with
  | nil => simp [dictInsert] at h; exact Or.inr h.1
  | cons kv rest ih =>
    rw [dictInsert] at h
    by_cases hk : kv.1 = k'
    · rw [if_pos hk] at h
      rcases List.mem_cons.mp h with h0 | h0
      · exact Or.inr (by simp at h0; exact h0.1)
      · exact Or.inl (List.mem_cons_of_mem _ h0)
    · rw [if_neg hk] at h
      rcases List.mem_cons.mp h with h0 | h0
      · exact Or.inl (h0 ▸ List.mem_cons_self _ _)
      · rcases ih h0 with h1 | h1
        · exact Or.inl (List.mem_cons_of_mem _ h1)
        · exact Or.inr h1

/-- Every entry of the `exceeded_standards` dict stems from an entry of
the `enabled_configs` dict whose standard exists and is exceeded. -/
theorem collectExceeded_mem_source {p : ParserState} {analyte : String} {value : PyVal}
    {enabled : List (String × ExceedanceConfig)} {c : String} {v : PyVal}
    (h : (c, v) ∈ collectExceeded p analyte value enabled) :
    ∃ cfg, (c, cfg) ∈ enabled := by
  have main : ∀ (l : List (String × ExceedanceConfig)) (acc : List (String × PyVal)),
      (c, v) ∈ l.foldl (fun acc kc =>
        match get_standards_value p analyte kc.1 with
        | none => acc
        | some std => if pyGtB value std then dictInsert acc kc.1 std else acc) acc →
      (c, v) ∈ acc ∨ ∃ cfg, (c, cfg) ∈ l := by
    intro l
    induction l with
    | nil => intro acc h; exact Or.inl h
    | cons kc rest ih =>
      intro acc h
      rw [List.foldl_cons] at h
      rcases ih _ h with h0 | h0
      · cases hstd : get_standards_value p analyte kc.1 with
        | none => rw [hstd] at h0; exact Or.inl h0
        | some std =>
          rw [hstd] at h0
          dsimp only at h0
          by_cases hgt : pyGtB value std = true
          · rw [if_pos hgt] at h0
            rcases mem_dictInsert h0 with h1 | h1
            · exact Or.inl h1
            · exact Or.inr ⟨kc.2, h1 ▸ List.mem_cons_self _ _⟩
          · rw [if_neg hgt] at h0
            exact Or.inl h0
      · exact Or.inr ⟨h0.choose, List.mem_cons_of_mem _ h0.choose_spec⟩
  rcases main enabled [] h with h0 | h0
  · simp at h0
  · exact h0

/-- A successful dominant-column selection names a key of the
`exceeded_standards` dict. -/
theorem selectDominant_mem_exceeded {cols : List String}
    {exceeded : List (String × PyVal)} {maxV : PyVal} {c : String}
    (h : selectDominant cols exceeded maxV = some c) :
    ∃ v, (c, v) ∈ exceeded := by
  unfold selectDominant at h
  have fromColsLemma : ∀ (l : List String) (acc : Option String),
      (acc = none ∨ ∃ v, (acc.getD "", v) ∈ exceeded ∧ acc ≠ none) →
      l.foldl (fun acc c =>
        match dictLookup exceeded c with
        | some v => if pyEqB v maxV then some c else acc
        | none => acc) acc = some c →
      ∃ v, (c, v) ∈ exceeded := by
    intro l
    induction l with
    | nil =>
      intro acc hacc h
      rcases hacc with h0 | h0
      · rw [List.foldl_nil] at h; rw [h0] at h; exact absurd h (by simp)
      · rw [List.foldl_nil] at h
        rcases h0 with ⟨v, hv, _⟩
        rw [h] at hv
        exact ⟨v, hv⟩
    | cons c0 rest ih =>
      intro acc hacc h
      rw [List.foldl_cons] at h
      cases hlk : dictLookup exceeded c0 with
      | some v =>
        rw [hlk] at h
        dsimp only at h
        by_cases heq : pyEqB v maxV = true
        · rw [if_pos heq] at h
          exact ih (some c0) (Or.inr ⟨v, dictLookup_mem hlk, by simp⟩) h
        · rw [if_neg heq] at h
          exact ih acc hacc h
      | none =>
        rw [hlk] at h
        dsimp only at h
        exact ih acc hacc h
  cases hfc : List.foldl (fun acc c =>
      match dictLookup exceeded c with
      | some v => if pyEqB v maxV then some c else acc
      | none => acc) none cols with
  | some c0 =>
    rw [hfc] at h
    dsimp only at h
    injection h with hc0
    rw [hc0] at hfc
    exact fromColsLemma cols none (Or.inl rfl) hfc
  | none =>
    rw [hfc] at h
    dsimp only at h
    have fbLemma : ∀ (l : List (String × PyVal)) (acc : Option String),
        (acc = none ∨ ∃ v, (acc.getD "", v) ∈ exceeded ∧ acc ≠ none) →
        l.foldl (fun acc kv =>
          match acc with
          | some _ => acc
          | none => if pyEqB kv.2 maxV then some kv.1 else acc) acc = some c →
        (∀ kv ∈ l, kv ∈ exceeded) →
        ∃ v, (c, v) ∈ exceeded := by
      intro l
      induction l with
      | nil =>
        intro acc hacc h _
        rcases hacc with h0 | h0
        · rw [List.foldl_nil] at h; rw [h0] at h; exact absurd h (by simp)
        · rw [List.foldl_nil] at h
          rcases h0 with ⟨v, hv, _⟩
          rw [h] at hv
          exact ⟨v, hv⟩
      | cons kv rest ih =>
        intro acc hacc h hsub
        rw [List.foldl_cons] at h
        cases acc with
        | some a => exact ih (some a) hacc h (fun x hx => hsub x (List.mem_cons_of_mem _ hx))
        | none =>
          by_cases heq : pyEqB kv.2 maxV = true
          · rw [if_pos heq] at h
            refine ih (some kv.1) (Or.inr ⟨kv.2, ?_, by simp⟩) h
              (fun x hx => hsub x (List.mem_cons_of_mem _ hx))
            exact hsub kv (List.mem_cons_self _ _)
          · rw [if_neg heq] at h
            exact ih none (Or.inl rfl) h (fun x hx => hsub x (List.mem_cons_of_mem _ hx))
    exact fbLemma exceeded none (Or.inl rfl) h (fun kv hkv => hkv)

/-- With at least one enabled config, the fallback does not run: the
call's result is computed from the filtered enabled configs and the
settings are left unchanged. -/
theorem check_exceedance_no_fallback {s : CustomizationSettings} {analyte : String}
    {value : PyVal} {p : ParserState}
    (h : (s.exceedance_configs.filter (fun kc => kc.2.enabled)).isEmpty = false) :
    check_exceedance s analyte value p =
      (let exceeded := collectExceeded p analyte value
        (s.exceedance_configs.filter (fun kc => kc.2.enabled))
       if exceeded.isEmpty then ((false, none), s)
       else ((true, selectDominant p.standards_columns exceeded
          (maxExceededValue exceeded)), s)) := by
  unfold check_exceedance
  have hcond : ((s.exceedance_configs.filter (fun kc => kc.2.enabled)).isEmpty &&
      !p.standards_columns.isEmpty) = false := by rw [h]; rfl
  dsimp only
  rw [hcond]
  rfl

/-- C1 (counterexample): in the all-disabled configuration state the
fallback treats even the disabled columns as enabled, so a disabled
standards column *is* reported as the dominant exceeded standard. -/
theorem c1_counterexample :
    dictLookup exSettingsDisabledS.exceedance_configs "S" =
      some { enabled := false, text_color := "#000000" } ∧
    (∀ kc ∈ exSettingsDisabledS.exceedance_configs, kc.2.enabled = false) ∧
    (check_exceedance exSettingsDisabledS "A" (PyVal.fin 2) exParserS).1 =
      (true, some "S") := by
  refine ⟨by decide, by decide, by decide⟩

/-- C1 (amended): a disabled standards column is never reported as the
dominant exceeded standard *provided at least one standards column is
enabled in the stored configuration* (so the auto-enable fallback does
not run); in the all-disabled state the fallback re-activates every
detected column for that call, including disabled ones. -/
theorem c1_disabled_never_dominant (s : CustomizationSettings) (p : ParserState)
    (analyte : String) (value : PyVal) (S : String) (cfgS : ExceedanceConfig)
    (hnodup : (s.exceedance_configs.map Prod.fst).Nodup)
    (hS : dictLookup s.exceedance_configs S = some cfgS)
    (hdis : cfgS.enabled = false)
    (hen : ∃ kc ∈ s.exceedance_configs, kc.2.enabled = true) :
    (check_exceedance s analyte value p).1.2 ≠ some S := by
  rcases hen with ⟨kc, hkc, hkcen⟩
  have hne : (s.exceedance_configs.filter (fun kc => kc.2.enabled)).isEmpty = false := by
    cases hfe : (s.exceedance_configs.filter (fun kc => kc.2.enabled)).isEmpty
    · rfl
    · exfalso
      have hmem : kc ∈ s.exceedance_configs.filter (fun kc => kc.2.enabled) :=
        List.mem_filter.mpr ⟨hkc, hkcen⟩
      rw [List.isEmpty_iff.mp hfe] at hmem
      simp at hmem
  rw [check_exceedance_no_fallback hne]
  intro hdom
  by_cases hexc : (collectExceeded p analyte value
      (s.exceedance_configs.filter (fun kc => kc.2.enabled))).isEmpty
  · rw [if_pos hexc] at hdom
    simp at hdom
  · rw [if_neg hexc] at hdom
    simp only at hdom
    rcases selectDominant_mem_exceeded hdom with ⟨v, hv⟩
    rcases collectExceeded_mem_source hv with ⟨cfg', hcfg'⟩
    have hmem := List.mem_filter.mp hcfg'
    have := dictLookup_of_mem_nodup hnodup hmem.1
    rw [hS] at this
    have hcfgeq : cfg' = cfgS := by injection this with h2; exact h2.symm
    rw [hcfgeq] at hmem
    rw [hdis] at hmem
    exact absurd hmem.2 (by simp)

theorem pyGtB_trans {x y z : PyVal} (hxy : pyGtB x y = true) (hyz : pyGtB y z = true) :
    pyGtB x z = true := by
  cases x <;> cases y <;> cases z <;> simp_all [pyGtB]
  linarith

theorem pyGtB_false_trans {x y z : PyVal} (hx : x ≠ PyVal.nan) (hy : y ≠ PyVal.nan)
    (hz : z ≠ PyVal.nan) (hxy : pyGtB y x = false) (hyz : pyGtB z y = false) :
    pyGtB z x = false := by
  cases x <;> cases y <;> cases z <;> simp_all [pyGtB]
  linarith

theorem pyEqB_eq {a b : PyVal} (h : pyEqB a b = true) : a = b := by
  cases a <;> cases b <;> simp_all [pyEqB]

theorem pyEqB_refl {a : PyVal} (ha : a ≠ PyVal.nan) : pyEqB a a = true := by
  cases a <;> simp_all [pyEqB]

/-- Python `max` on a non-`nan` list yields an element that no element
strictly exceeds. -/
theorem pyMaxBy_id_spec :
    ∀ (t : List PyVal) (h : PyVal), (∀ x ∈ h :: t, x ≠ PyVal.nan) →
      pyMaxBy id h t ∈ h :: t ∧ ∀ x ∈ h :: t, pyGtB x (pyMaxBy id h t) = false := by
  intro t
  induction t with
  | nil =>
    intro h _
    refine ⟨List.mem_cons_self _ _, ?_⟩
    intro x hx
    rw [List.mem_singleton.mp hx]
    exact pyGtB_irrefl h
  | cons y t' ih =>
    intro h hnn
    have hstep : pyMaxBy id h (y :: t') = pyMaxBy id (if pyGtB y h then y else h) t' := rfl
    by_cases hyh : pyGtB y h = true
    · rw [hstep, if_pos hyh]
      have hnn' : ∀ x ∈ y :: t', x ≠ PyVal.nan := by
        intro x hx
        rcases List.mem_cons.mp hx with h0 | h0
        · exact hnn x (by simp [h0])
        · exact hnn x (by simp [h0])
      obtain ⟨hmem, hmax⟩ := ih y hnn'
      refine ⟨?_, ?_⟩
      · rcases List.mem_cons.mp hmem with h0 | h0
        · rw [h0]; simp
        · simp [h0]
      · intro x hx
        rcases List.mem_cons.mp hx with h0 | h0
        · rw [h0]
          cases hh : pyGtB h (pyMaxBy id y t') with
          | false => rfl
          | true =>
            exact absurd (pyGtB_trans hyh hh)
              (by rw [hmax y (List.mem_cons_self _ _)]; simp)
        · exact hmax x h0
    · rw [hstep, if_neg hyh]
      have hnn' : ∀ x ∈ h :: t', x ≠ PyVal.nan := by
        intro x hx
        rcases List.mem_cons.mp hx with h0 | h0
        · exact hnn x (by simp [h0])
        · exact hnn x (by simp [h0])
      obtain ⟨hmem, hmax⟩ := ih h hnn'
      refine ⟨?_, ?_⟩
      · rcases List.mem_cons.mp hmem with h0 | h0
        · rw [h0]; simp
        · simp [h0]
      · intro x hx
        rcases List.mem_cons.mp hx with h0 | h0
        · exact h0 ▸ hmax h (List.mem_cons_self _ _)
        · rcases List.mem_cons.mp h0 with h1 | h1
          · rw [h1]
            exact pyGtB_false_trans (hnn' _ hmem) (hnn h (List.mem_cons_self _ _))
              (hnn y (by simp)) (hmax h (List.mem_cons_self _ _)) (by simpa using hyh)
          · exact hmax x (List.mem_cons_of_mem _ h1)

theorem dictInsert_eq_append {κ α : Type} [DecidableEq κ] {l : List (κ × α)} {k : κ}
    (v : α) (h : dictLookup l k = none) : dictInsert l k v = l ++ [(k, v)] := by
  induction l with
  | nil => rfl
  | cons kv rest ih =>
    rw [dictLookup] at h
    by_cases hk : kv.1 = k
    · rw [if_pos hk] at h; exact absurd h (by simp)
    · rw [if_neg hk] at h
      rw [dictInsert, if_neg hk, ih h, List.cons_append]

/-- The `exceeded_standards` value a column would contribute: its
standard for the analyte, kept only when strictly below the value. -/
def exceededValueAt (p : ParserState) (analyte : String) (value : PyVal)
    (c : String) : Option PyVal :=
  match get_standards_value p analyte c with
  | none => none
  | some std => if pyGtB value std then some std else none

/-- Under unique config keys, the exceeded dict is a `filterMap` of the
enabled configs. -/
theorem collectExceeded_eq_filterMap {p : ParserState} {analyte : String} {value : PyVal}
    {enabled : List (String × ExceedanceConfig)}
    (hnodup : (enabled.map Prod.fst).Nodup) :
    collectExceeded p analyte value enabled =
      enabled.filterMap (fun kc =>
        (exceededValueAt p analyte value kc.1).map (fun w => (kc.1, w))) := by
  have main : ∀ (l : List (String × ExceedanceConfig)) (acc : List (String × PyVal)),
      (l.map Prod.fst).Nodup →
      (∀ kc ∈ l, dictLookup acc kc.1 = none) →
      l.foldl (fun acc kc =>
        match get_standards_value p analyte kc.1 with
        | none => acc
        | some std => if pyGtB value std then dictInsert acc kc.1 std else acc) acc =
      acc ++ l.filterMap (fun kc =>
        (exceededValueAt p analyte value kc.1).map (fun w => (kc.1, w))) := by
    intro l
    induction l with
    | nil => intro acc _ _; simp
    | cons kc rest ih =>
      intro acc hnd hdisj
      rw [List.map_cons, List.nodup_cons] at hnd
      rw [List.foldl_cons]
      cases hstd : get_standards_value p analyte kc.1 with
      | none =>
        have he : exceededValueAt p analyte value kc.1 = none := by
          unfold exceededValueAt; rw [hstd]
        have hfm : (kc :: rest).filterMap (fun kc =>
            (exceededValueAt p analyte value kc.1).map (fun w => (kc.1, w))) =
            rest.filterMap (fun kc =>
              (exceededValueAt p analyte value kc.1).map (fun w => (kc.1, w))) := by
          rw [List.filterMap_cons, he]
          rfl
        rw [hfm]
        exact ih acc hnd.2 (fun kc' h' => hdisj kc' (List.mem_cons_of_mem _ h'))
      | some std =>
        by_cases hgt : pyGtB value std = true
        · have he : exceededValueAt p analyte value kc.1 = some std := by
            unfold exceededValueAt; rw [hstd]; dsimp only; rw [if_pos hgt]
          have hfm : (kc :: rest).filterMap (fun kc =>
              (exceededValueAt p analyte value kc.1).map (fun w => (kc.1, w))) =
              (kc.1, std) :: rest.filterMap (fun kc =>
                (exceededValueAt p analyte value kc.1).map (fun w => (kc.1, w))) := by
            rw [List.filterMap_cons, he]
            rfl
          rw [hfm]
          rw [show (match some std with
            | none => acc
            | some std => if pyGtB value std then dictInsert acc kc.1 std else acc) =
              dictInsert acc kc.1 std by dsimp only; rw [if_pos hgt]]
          rw [dictInsert_eq_append std (hdisj kc (List.mem_cons_self _ _))]
          rw [ih (acc ++ [(kc.1, std)]) hnd.2 ?_]
          · simp
          · intro kc' h'
            rw [dictLookup_append_right _ (hdisj kc' (List.mem_cons_of_mem _ h'))]
            rw [dictLookup_singleton]
            rw [if_neg]
            intro hcontra
            exact hnd.1 (hcontra ▸ List.mem_map.mpr ⟨kc', h', rfl⟩)
        · have he : exceededValueAt p analyte value kc.1 = none := by
            unfold exceededValueAt; rw [hstd]; dsimp only; rw [if_neg hgt]
          have hfm : (kc :: rest).filterMap (fun kc =>
              (exceededValueAt p analyte value kc.1).map (fun w => (kc.1, w))) =
              rest.filterMap (fun kc =>
                (exceededValueAt p analyte value kc.1).map (fun w => (kc.1, w))) := by
            rw [List.filterMap_cons, he]
            rfl
          rw [hfm]
          rw [show (match some std with
            | none => acc
            | some std => if pyGtB value std then dictInsert acc kc.1 std else acc) =
              acc by dsimp only; rw [if_neg hgt]]
          exact ih acc hnd.2 (fun kc' h' => hdisj kc' (List.mem_cons_of_mem _ h'))
  have h0 := main enabled [] hnodup (fun kc _ => rfl)
  rw [List.nil_append] at h0
  exact h0

/-- Lookup in the key-determined `filterMap`: the result is the value
the key itself determines, provided the key occurs at all. -/
theorem dictLookup_filterMap_keyfun {g : String → Option PyVal}
    {l : List (String × ExceedanceConfig)} (c : String) :
    dictLookup (l.filterMap (fun kc => (g kc.1).map (fun w => (kc.1, w)))) c =
      if l.any (fun kc => kc.1 = c) then g c else none := by
  induction l with
  | nil => simp [dictLookup]
  | cons kc rest ih =>
    rw [List.any_cons]
    cases hg : g kc.1 with
    | none =>
      have hfm : (kc :: rest).filterMap (fun kc => (g kc.1).map (fun w => (kc.1, w))) =
          rest.filterMap (fun kc => (g kc.1).map (fun w => (kc.1, w))) := by
        rw [List.filterMap_cons, hg]
        rfl
      rw [hfm, ih]
      by_cases hk : kc.1 = c
      · have hc : (decide (kc.1 = c) || rest.any fun kc => decide (kc.1 = c)) = true := by
          simp [hk]
        rw [hc, if_pos rfl]
        by_cases ha : (rest.any fun kc => decide (kc.1 = c)) = true
        · rw [if_pos ha]
        · rw [if_neg ha, ← hk, hg]
      · have hc : (decide (kc.1 = c) || rest.any fun kc => decide (kc.1 = c)) =
            (rest.any fun kc => decide (kc.1 = c)) := by simp [hk]
        rw [hc]
    | some w =>
      have hfm : (kc :: rest).filterMap (fun kc => (g kc.1).map (fun w => (kc.1, w))) =
          (kc.1, w) :: rest.filterMap (fun kc => (g kc.1).map (fun w => (kc.1, w))) := by
        rw [List.filterMap_cons, hg]
        rfl
      rw [hfm, dictLookup]
      by_cases hk : kc.1 = c
      · rw [if_pos hk]
        have hc : (decide (kc.1 = c) || rest.any fun kc => decide (kc.1 = c)) = true := by
          simp [hk]
        rw [hc, if_pos rfl, ← hk, hg]
      · rw [if_neg hk, ih]
        have hc : (decide (kc.1 = c) || rest.any fun kc => decide (kc.1 = c)) =
            (rest.any fun kc => decide (kc.1 = c)) := by simp [hk]
        rw [hc]

/-- The key list of the key-determined `filterMap` is a sublist of the
original key list, so uniqueness of keys is preserved. -/
theorem filterMap_keyfun_keys_sublist (g : String → Option PyVal)
    (l : List (String × ExceedanceConfig)) :
    ((l.filterMap (fun kc => (g kc.1).map (fun w => (kc.1, w)))).map Prod.fst).Sublist
      (l.map Prod.fst) := by
  induction l with
  | nil => simp
  | cons kc rest ih =>
    rw [List.map_cons]
    cases hg : g kc.1 with
    | none =>
      have hfm : (kc :: rest).filterMap (fun kc => (g kc.1).map (fun w => (kc.1, w))) =
          rest.filterMap (fun kc => (g kc.1).map (fun w => (kc.1, w))) := by
        rw [List.filterMap_cons, hg]
        rfl
      rw [hfm]
      exact ih.cons _
    | some w =>
      have hfm : (kc :: rest).filterMap (fun kc => (g kc.1).map (fun w => (kc.1, w))) =
          (kc.1, w) :: rest.filterMap (fun kc => (g kc.1).map (fun w => (kc.1, w))) := by
        rw [List.filterMap_cons, hg]
        rfl
      rw [hfm, List.map_cons]
      exact ih.cons₂ _

/-- A fold of "keep the last satisfying element" either finds nothing
(and returns the seed) or returns a satisfying element after which
nothing satisfies. -/
theorem foldl_lastP_spec (PB : String → Bool) :
    ∀ (cols : List String) (acc : Option String),
      (cols.foldl (fun a c => if PB c then some c else a) acc = acc ∧
        ∀ c ∈ cols, PB c = false) ∨
      (∃ c pre post, cols.foldl (fun a c => if PB c then some c else a) acc = some c ∧
        PB c = true ∧ cols = pre ++ c :: post ∧ ∀ c' ∈ post, PB c' = false) := by
  intro cols
  induction cols with
  | nil => intro acc; exact Or.inl ⟨rfl, by simp⟩
  | cons c0 rest ih =>
    intro acc
    rw [List.foldl_cons]
    by_cases h0 : PB c0 = true
    · rw [if_pos h0]
      rcases ih (some c0) with ⟨heq, hall⟩ | ⟨c, pre, post, heq, hc, hsplit, hall⟩
      · exact Or.inr ⟨c0, [], rest, heq, h0, by simp, hall⟩
      · exact Or.inr ⟨c, c0 :: pre, post, heq, hc, by rw [hsplit]; rfl, hall⟩
    · rw [if_neg h0]
      rcases ih acc with ⟨heq, hall⟩ | ⟨c, pre, post, heq, hc, hsplit, hall⟩
      · refine Or.inl ⟨heq, ?_⟩
        intro c hc
        rcases List.mem_cons.mp hc with h1 | h1
        · rw [h1]; simpa using h0
        · exact hall c h1
      · exact Or.inr ⟨c, c0 :: pre, post, heq, hc, by rw [hsplit]; rfl, hall⟩

/-- A column is reported in the exceeded dict exactly when it has an
enabled config and a standard strictly below the (finite) value. -/
theorem exceeded_lookup_iff {s : CustomizationSettings} {p : ParserState}
    {analyte : String} (V : ℚ)
    (hnodup : (s.exceedance_configs.map Prod.fst).Nodup) (c : String) (w : ℚ) :
    dictLookup (collectExceeded p analyte (PyVal.fin V)
        (s.exceedance_configs.filter (fun kc => kc.2.enabled))) c =
      some (PyVal.fin w) ↔
    ((∃ cfg, (c, cfg) ∈ s.exceedance_configs ∧ cfg.enabled = true) ∧
      get_standards_value p analyte c = some (PyVal.fin w) ∧ w < V) := by
  have henodup : ((s.exceedance_configs.filter (fun kc => kc.2.enabled)).map
      Prod.fst).Nodup :=
    hnodup.sublist ((List.filter_sublist _).map _)
  rw [collectExceeded_eq_filterMap henodup, dictLookup_filterMap_keyfun]
  constructor
  · intro h
    by_cases hany : ((s.exceedance_configs.filter (fun kc => kc.2.enabled)).any
        (fun kc => kc.1 = c)) = true
    · rw [if_pos hany] at h
      rcases List.any_eq_true.mp hany with ⟨kc, hkc, hkeq⟩
      have hkeq' : kc.1 = c := of_decide_eq_true hkeq
      have hmem := List.mem_filter.mp hkc
      unfold exceededValueAt at h
      cases hstd : get_standards_value p analyte c with
      | none => rw [hstd] at h; exact absurd h (by simp)
      | some std0 =>
        rw [hstd] at h
        dsimp only at h
        by_cases hgt : pyGtB (PyVal.fin V) std0 = true
        · rw [if_pos hgt] at h
          have hstdeq : std0 = PyVal.fin w := by injection h
          rw [hstdeq] at hgt
          have hlt : decide (w < V) = true := hgt
          refine ⟨⟨kc.2, ?_, hmem.2⟩, h, of_decide_eq_true hlt⟩
          rw [← hkeq']
          exact hmem.1
        · rw [if_neg hgt] at h; exact absurd h (by simp)
    · rw [if_neg hany] at h; exact absurd h (by simp)
  · rintro ⟨⟨cfg, hmem, hcen⟩, hstd, hlt⟩
    have hmemf : (c, cfg) ∈ s.exceedance_configs.filter (fun kc => kc.2.enabled) :=
      List.mem_filter.mpr ⟨hmem, by simpa using hcen⟩
    have hany : ((s.exceedance_configs.filter (fun kc => kc.2.enabled)).any
        (fun kc => kc.1 = c)) = true :=
      List.any_eq_true.mpr ⟨(c, cfg), hmemf, by simp⟩
    rw [if_pos hany]
    unfold exceededValueAt
    rw [hstd]
    dsimp only
    rw [if_pos (by exact decide_eq_true hlt)]

/-- C3: with at least one enabled config (so the fallback is off),
unique config keys and finite standards for the analyte that all belong
to the detected standards columns, `check_exceedance` flags an
exceedance exactly when some enabled column's standard is strictly
below the value; any returned dominant column is an enabled exceeded
column whose standard is maximal among the exceeded ones, with no later
column in the canonical left-to-right order being an exceeded column
with that same standard value; whenever the flag is set a dominant
column *is* returned; and without an exceedance the returned column is
`none`. -/
theorem c3_exceedance_characterization (s : CustomizationSettings) (p : ParserState)
    (analyte : String) (V : ℚ)
    (hnodup : (s.exceedance_configs.map Prod.fst).Nodup)
    (hen : ∃ kc ∈ s.exceedance_configs, kc.2.enabled = true)
    (hcover : ∀ c v, get_standards_value p analyte c = some v → c ∈ p.standards_columns)
    (hfin : ∀ c v, get_standards_value p analyte c = some v → ∃ q : ℚ, v = PyVal.fin q) :
    ((check_exceedance s analyte (PyVal.fin V) p).1.1 = true ↔
      ∃ c cfg w, (c, cfg) ∈ s.exceedance_configs ∧ cfg.enabled = true ∧
        get_standards_value p analyte c = some (PyVal.fin w) ∧ w < V) ∧
    (∀ c, (check_exceedance s analyte (PyVal.fin V) p).1.2 = some c →
      ∃ cfg w, (c, cfg) ∈ s.exceedance_configs ∧ cfg.enabled = true ∧
        get_standards_value p analyte c = some (PyVal.fin w) ∧ w < V ∧
        (∀ c' cfg' w', (c', cfg') ∈ s.exceedance_configs → cfg'.enabled = true →
          get_standards_value p analyte c' = some (PyVal.fin w') → w' < V → w' ≤ w) ∧
        (∃ pre post, p.standards_columns = pre ++ c :: post ∧
          ∀ c' ∈ post, ¬ ∃ cfg', (c', cfg') ∈ s.exceedance_configs ∧
            cfg'.enabled = true ∧
            get_standards_value p analyte c' = some (PyVal.fin w) ∧ w < V)) ∧
    ((check_exceedance s analyte (PyVal.fin V) p).1.1 = true →
      ∃ c, (check_exceedance s analyte (PyVal.fin V) p).1.2 = some c) ∧
    ((check_exceedance s analyte (PyVal.fin V) p).1.1 = false →
      (check_exceedance s analyte (PyVal.fin V) p).1.2 = none) := by
  rcases hen with ⟨kc0, hkc0, hkc0en⟩
  have hne : (s.exceedance_configs.filter (fun kc => kc.2.enabled)).isEmpty = false := by
    cases hfe : (s.exceedance_configs.filter (fun kc => kc.2.enabled)).isEmpty
    · rfl
    · exfalso
      have hmem : kc0 ∈ s.exceedance_configs.filter (fun kc => kc.2.enabled) :=
        List.mem_filter.mpr ⟨hkc0, hkc0en⟩
      rw [List.isEmpty_iff.mp hfe] at hmem
      simp at hmem
  have henodup : ((s.exceedance_configs.filter (fun kc => kc.2.enabled)).map
      Prod.fst).Nodup :=
    hnodup.sublist ((List.filter_sublist _).map _)
  set enabled := s.exceedance_configs.filter (fun kc => kc.2.enabled) with hen_def
  set exceeded := collectExceeded p analyte (PyVal.fin V) enabled with hex_def
  have hexnodup : (exceeded.map Prod.fst).Nodup := by
    rw [hex_def, collectExceeded_eq_filterMap henodup]
    exact henodup.sublist (filterMap_keyfun_keys_sublist _ _)
  have hch : check_exceedance s analyte (PyVal.fin V) p =
      if exceeded.isEmpty then ((false, none), s)
      else ((true, selectDominant p.standards_columns exceeded
        (maxExceededValue exceeded)), s) := by
    rw [check_exceedance_no_fallback hne]
  -- every entry of the exceeded dict is an enabled column with a
  -- finite standard strictly below V
  have hentry : ∀ kv ∈ exceeded, ∃ w : ℚ, kv.2 = PyVal.fin w ∧
      (∃ cfg, (kv.1, cfg) ∈ s.exceedance_configs ∧ cfg.enabled = true) ∧
      get_standards_value p analyte kv.1 = some (PyVal.fin w) ∧ w < V := by
    intro kv hkv
    have hlk : dictLookup exceeded kv.1 = some kv.2 := dictLookup_of_mem_nodup hexnodup
      (by rw [show (kv.1, kv.2) = kv from rfl]; exact hkv)
    have hfinkv : ∃ q : ℚ, kv.2 = PyVal.fin q := by
      rcases collectExceeded_mem_source hkv with ⟨cfg, hcfg⟩
      -- read the standard back through the lookup characterization
      have h0 := hlk
      rw [hex_def, collectExceeded_eq_filterMap henodup,
        dictLookup_filterMap_keyfun] at h0
      by_cases hany : (enabled.any (fun kc => kc.1 = kv.1)) = true
      · rw [if_pos hany] at h0
        unfold exceededValueAt at h0
        cases hstd : get_standards_value p analyte kv.1 with
        | none => rw [hstd] at h0; exact absurd h0 (by simp)
        | some std0 =>
          rw [hstd] at h0
          dsimp only at h0
          by_cases hgt : pyGtB (PyVal.fin V) std0 = true
          · rw [if_pos hgt] at h0
            rcases hfin kv.1 std0 hstd with ⟨q, hq⟩
            exact ⟨q, by injection h0 with h1; rw [← h1, hq]⟩
          · rw [if_neg hgt] at h0; exact absurd h0 (by simp)
      · rw [if_neg hany] at h0; exact absurd h0 (by simp)
    rcases hfinkv with ⟨w, hw⟩
    have := (exceeded_lookup_iff V hnodup kv.1 w).mp (by rw [← hw]; exact hlk)
    exact ⟨w, hw, this⟩
  -- whenever the exceeded dict is non-empty, the dominant-column scan
  -- succeeds: the key holding the maximum satisfies its predicate
  have hdom_total : exceeded.isEmpty = false →
      ∃ c, selectDominant p.standards_columns exceeded
        (maxExceededValue exceeded) = some c := by
    intro hemp
    obtain ⟨kv0, rest0, hexc⟩ : ∃ kv rest, exceeded = kv :: rest := by
      cases hexc : exceeded with
      | nil => rw [hexc] at hemp; simp at hemp
      | cons kv rest => exact ⟨kv, rest, rfl⟩
    have hvals_nan : ∀ x ∈ kv0.2 :: rest0.map Prod.snd, x ≠ PyVal.nan := by
      intro x hx
      have hx' : x ∈ exceeded.map Prod.snd := by
        rw [hexc, List.map_cons]
        exact hx
      rcases List.mem_map.mp hx' with ⟨kv, hkv, hkveq⟩
      rcases hentry kv hkv with ⟨w, hw, _⟩
      rw [← hkveq, hw]
      simp
    have hmaxdef : maxExceededValue exceeded =
        pyMaxBy id kv0.2 (rest0.map Prod.snd) := by
      rw [hexc]; rfl
    obtain ⟨hmaxmem, _⟩ := pyMaxBy_id_spec (rest0.map Prod.snd) kv0.2 hvals_nan
    rw [← hmaxdef] at hmaxmem
    have hmaxmem' : maxExceededValue exceeded ∈ exceeded.map Prod.snd := by
      nth_rewrite 1 [hexc]
      rw [List.map_cons]
      exact hmaxmem
    rcases List.mem_map.mp hmaxmem' with ⟨kvm, hkvm, hkvmeq⟩
    rcases hentry kvm hkvm with ⟨wmax, hwmax, _, hstdm, _⟩
    have hmaxfin : maxExceededValue exceeded = PyVal.fin wmax := by
      rw [← hkvmeq, hwmax]
    have hstep : (fun (acc : Option String) c =>
        match dictLookup exceeded c with
        | some v => if pyEqB v (maxExceededValue exceeded) then some c else acc
        | none => acc) =
        (fun (acc : Option String) c =>
          if (match dictLookup exceeded c with
            | some v => pyEqB v (maxExceededValue exceeded)
            | none => false) then some c else acc) := by
      funext acc c
      cases dictLookup exceeded c with
      | some v => dsimp only
      | none => dsimp only; rw [if_neg (by simp)]
    have hPBm : (match dictLookup exceeded kvm.1 with
        | some v => pyEqB v (maxExceededValue exceeded)
        | none => false) = true := by
      rw [dictLookup_of_mem_nodup hexnodup
        (by rw [show (kvm.1, kvm.2) = kvm from rfl]; exact hkvm)]
      dsimp only
      rw [hkvmeq]
      exact pyEqB_refl (by rw [hmaxfin]; simp)
    have hmmem_cols : kvm.1 ∈ p.standards_columns := hcover kvm.1 _ hstdm
    unfold selectDominant
    rw [hstep]
    dsimp only
    rcases foldl_lastP_spec (fun c' => (match dictLookup exceeded c' with
        | some v => pyEqB v (maxExceededValue exceeded)
        | none => false)) p.standards_columns none with
      ⟨heq, hall⟩ | ⟨c0, pre, post, heq, hPB0, hsplit, hall⟩
    · exact absurd hPBm (by rw [hall kvm.1 hmmem_cols]; simp)
    · rw [heq]
      exact ⟨c0, rfl⟩
  refine ⟨?_, ?_, ?_, ?_⟩
  · -- the is_exceeded flag
    constructor
    · intro h1
      cases hemp : exceeded.isEmpty with
      | true => rw [hch, if_pos hemp] at h1; exact absurd h1 (by simp)
      | false =>
        cases hexc : exceeded with
        | nil => rw [hexc] at hemp; simp at hemp
        | cons kv rest =>
          rcases hentry kv (by rw [hexc]; exact List.mem_cons_self _ _) with
            ⟨w, _, ⟨cfg, hmem, hcen⟩, hstd, hlt⟩
          exact ⟨kv.1, cfg, w, hmem, hcen, hstd, hlt⟩
    · rintro ⟨c, cfg, w, hmem, hcen, hstd, hlt⟩
      have hlk : dictLookup exceeded c = some (PyVal.fin w) :=
        (exceeded_lookup_iff V hnodup c w).mpr ⟨⟨cfg, hmem, hcen⟩, hstd, hlt⟩
      have hemp : exceeded.isEmpty = false := by
        cases hexc : exceeded with
        | nil => rw [hexc] at hlk; simp [dictLookup] at hlk
        | cons kv rest => rfl
      rw [hch, if_neg (by rw [hemp]; simp)]
  · -- the dominant column
    intro c hdom
    cases hemp : exceeded.isEmpty with
    | true =>
      rw [hch, if_pos hemp] at hdom
      exact absurd hdom (by simp)
    | false =>
      rw [hch, if_neg (by rw [hemp]; simp)] at hdom
      dsimp only at hdom
      -- the maximum of the exceeded standards
      obtain ⟨kv0, rest0, hexc⟩ : ∃ kv rest, exceeded = kv :: rest := by
        cases hexc : exceeded with
        | nil => rw [hexc] at hemp; simp at hemp
        | cons kv rest => exact ⟨kv, rest, rfl⟩
      have hvals_nan : ∀ x ∈ kv0.2 :: rest0.map Prod.snd, x ≠ PyVal.nan := by
        intro x hx
        have hx' : x ∈ exceeded.map Prod.snd := by
          rw [hexc, List.map_cons]
          exact hx
        rcases List.mem_map.mp hx' with ⟨kv, hkv, hkveq⟩
        rcases hentry kv hkv with ⟨w, hw, _⟩
        rw [← hkveq, hw]
        simp
      have hmaxdef : maxExceededValue exceeded = pyMaxBy id kv0.2 (rest0.map Prod.snd) := by
        rw [hexc]; rfl
      obtain ⟨hmaxmem, hmaxmax⟩ := pyMaxBy_id_spec (rest0.map Prod.snd) kv0.2 hvals_nan
      rw [← hmaxdef] at hmaxmem hmaxmax
      set maxV := maxExceededValue exceeded with hmax_def
      have hmaxmem' : maxV ∈ exceeded.map Prod.snd := by
        rw [hexc, List.map_cons]
        exact hmaxmem
      rcases List.mem_map.mp hmaxmem' with ⟨kvm, hkvm, hkvmeq⟩
      rcases hentry kvm hkvm with ⟨wmax, hwmax, ⟨cfgm, hmemm, hcenm⟩, hstdm, hltm⟩
      have hmaxfin : maxV = PyVal.fin wmax := by rw [← hkvmeq, hwmax]
      -- the dominant-selection fold as a "last satisfying" fold
      have hstep : (fun (acc : Option String) c =>
          match dictLookup exceeded c with
          | some v => if pyEqB v maxV then some c else acc
          | none => acc) =
          (fun (acc : Option String) c =>
            if (match dictLookup exceeded c with
              | some v => pyEqB v maxV
              | none => false) then some c else acc) := by
        funext acc c
        cases dictLookup exceeded c with
        | some v => dsimp only
        | none => dsimp only; rw [if_neg (by simp)]
      have hPBc : ∀ c', (match dictLookup exceeded c' with
          | some v => pyEqB v maxV
          | none => false) = true ↔
          dictLookup exceeded c' = some maxV := by
        intro c'
        cases hlk : dictLookup exceeded c' with
        | some v =>
          dsimp only
          constructor
          · intro hv; rw [pyEqB_eq hv]
          · intro hv; injection hv with hv1; rw [hv1]
            exact pyEqB_refl (by rw [hmaxfin]; simp)
        | none => simp
      -- PB holds for the key of the maximum
      have hPBm : (match dictLookup exceeded kvm.1 with
          | some v => pyEqB v maxV
          | none => false) = true := by
        rw [hPBc kvm.1]
        rw [← hkvmeq]
        exact dictLookup_of_mem_nodup hexnodup
          (by rw [show (kvm.1, kvm.2) = kvm from rfl]; exact hkvm)
      have hmmem_cols : kvm.1 ∈ p.standards_columns := hcover kvm.1 _ hstdm
      unfold selectDominant at hdom
      rw [hstep] at hdom
      dsimp only at hdom
      rcases foldl_lastP_spec (fun c' => (match dictLookup exceeded c' with
          | some v => pyEqB v maxV
          | none => false)) p.standards_columns none with
        ⟨heq, hall⟩ | ⟨c0, pre, post, heq, hPB0, hsplit, hall⟩
      · exact absurd hPBm (by rw [hall kvm.1 hmmem_cols]; simp)
      · rw [heq] at hdom
        dsimp only at hdom
        have hceq : c0 = c := by injection hdom
        subst hceq
        have hlkc : dictLookup exceeded c0 = some maxV := (hPBc c0).mp hPB0
        have hfacts := (exceeded_lookup_iff V hnodup c0 wmax).mp
          (by rw [← hmaxfin]; exact hlkc)
        rcases hfacts with ⟨⟨cfg, hmem, hcen⟩, hstd, hlt⟩
        refine ⟨cfg, wmax, hmem, hcen, hstd, hlt, ?_, ?_⟩
        · intro c' cfg' w' hmem' hcen' hstd' hlt'
          have hlk' : dictLookup exceeded c' = some (PyVal.fin w') :=
            (exceeded_lookup_iff V hnodup c' w').mpr ⟨⟨cfg', hmem', hcen'⟩, hstd', hlt'⟩
          have hmem'' : PyVal.fin w' ∈ exceeded.map Prod.snd :=
            List.mem_map.mpr ⟨(c', PyVal.fin w'), dictLookup_mem hlk', rfl⟩
          have hngt : pyGtB (PyVal.fin w') maxV = false := by
            apply hmaxmax
            rw [hexc, List.map_cons] at hmem''
            exact hmem''
          rw [hmaxfin] at hngt
          have : ¬ (wmax < w') := by
            intro hcon
            rw [show pyGtB (PyVal.fin w') (PyVal.fin wmax) = decide (wmax < w') from rfl,
              decide_eq_true hcon] at hngt
            exact absurd hngt (by simp)
          exact le_of_not_lt this
        · refine ⟨pre, post, hsplit, ?_⟩
          rintro c' hc' ⟨cfg', hmem', hcen', hstd', hlt'⟩
          have hlk' : dictLookup exceeded c' = some (PyVal.fin wmax) :=
            (exceeded_lookup_iff V hnodup c' wmax).mpr ⟨⟨cfg', hmem', hcen'⟩, hstd', hlt'⟩
          have hPB' : (match dictLookup exceeded c' with
              | some v => pyEqB v maxV
              | none => false) = true := by
            rw [hPBc c', hlk', hmaxfin]
          exact absurd hPB' (by rw [hall c' hc']; simp)
  · -- the flag forces a dominant column to be returned
    intro h1
    cases hemp : exceeded.isEmpty with
    | true =>
      rw [hch, if_pos hemp] at h1
      exact absurd h1 (by simp)
    | false =>
      rcases hdom_total hemp with ⟨c, hc⟩
      refine ⟨c, ?_⟩
      rw [hch, if_neg (by rw [hemp]; simp)]
      exact hc
  · -- no exceedance means no dominant column
    intro h1
    cases hemp : exceeded.isEmpty with
    | true => rw [hch, if_pos hemp]
    | false =>
      rw [hch, if_neg (by rw [hemp]; simp)] at h1
      exact absurd h1 (by simp)

/-- C3 (witness): the tie-break example of the specification: standards
A = B = 10, both enabled, value 15 exceeds both, and the *last* column
B is reported dominant. -/
theorem c3_witness :
    (∃ kc ∈ exSettingsEnabledAB.exceedance_configs, kc.2.enabled = true) ∧
    ((check_exceedance exSettingsEnabledAB "X" (PyVal.fin 15) exParserTie).1.1 = true ↔
      ∃ c cfg w, (c, cfg) ∈ exSettingsEnabledAB.exceedance_configs ∧
        cfg.enabled = true ∧
        get_standards_value exParserTie "X" c = some (PyVal.fin w) ∧ w < 15) ∧
    (check_exceedance exSettingsEnabledAB "X" (PyVal.fin 15) exParserTie).1 =
      (true, some "B") ∧
    (check_exceedance exSettingsEnabledAB "X" (PyVal.fin 10) exParserTie).1 =
      (false, none) := by
  refine ⟨⟨("A", defaultExceedanceConfig), by decide, rfl⟩,
    (c3_exceedance_characterization exSettingsEnabledAB exParserTie "X" 15
      (by decide) ⟨("A", defaultExceedanceConfig), by decide, rfl⟩ ?_ ?_).1,
    by decide, by decide⟩
  · intro c v h
    by_cases hA : c = "A"
    · rw [hA]; decide
    · by_cases hB : c = "B"
      · rw [hB]; decide
      · exfalso
        revert h
        unfold get_standards_value exParserTie
        dsimp only
        rw [show dictLookup [("X", [("A", some (PyVal.fin 10)), ("B", some (PyVal.fin 10))])] "X"
          = some [("A", some (PyVal.fin 10)), ("B", some (PyVal.fin 10))] from rfl]
        dsimp only
        rw [dictLookup, if_neg (fun h => hA h.symm), dictLookup,
          if_neg (fun h => hB h.symm), dictLookup]
        simp
  · intro c v h
    by_cases hA : c = "A"
    · rw [hA] at h
      rw [show get_standards_value exParserTie "X" "A" = some (PyVal.fin 10)
        from by decide] at h
      exact ⟨10, by injection h with h1; exact h1.symm⟩
    · by_cases hB : c = "B"
      · rw [hB] at h
        rw [show get_standards_value exParserTie "X" "B" = some (PyVal.fin 10)
          from by decide] at h
        exact ⟨10, by injection h with h1; exact h1.symm⟩
      · exfalso
        revert h
        unfold get_standards_value exParserTie
        dsimp only
        rw [show dictLookup [("X", [("A", some (PyVal.fin 10)), ("B", some (PyVal.fin 10))])] "X"
          = some [("A", some (PyVal.fin 10)), ("B", some (PyVal.fin 10))] from rfl]
        dsimp only
        rw [dictLookup, if_neg (fun h => hA h.symm), dictLookup,
          if_neg (fun h => hB h.symm), dictLookup]
        simp

/-- C1 (witness): with S disabled but T enabled (standard 2), a value
of 5 exceeds both stored standards yet S is not reported dominant. -/
theorem c1_witness :
    (dictLookup exSettingsSdisTen.exceedance_configs "S" =
      some { enabled := false, text_color := "#000000" }) ∧
    (∃ kc ∈ exSettingsSdisTen.exceedance_configs, kc.2.enabled = true) ∧
    (check_exceedance exSettingsSdisTen "A" (PyVal.fin 5) exParserST).1.2 ≠ some "S" :=
  ⟨by decide, ⟨("T", { enabled := true, text_color := "#000000" }), by decide, rfl⟩,
    c1_disabled_never_dominant exSettingsSdisTen exParserST "A" (PyVal.fin 5) "S"
      { enabled := false, text_color := "#000000" } (by decide) (by decide) rfl
      ⟨("T", { enabled := true, text_color := "#000000" }), by decide, rfl⟩⟩

/-! # Stability lemmas for claim C5 -/

/-- Re-inserting a key's current value leaves the dict unchanged. -/
theorem dictInsert_self {κ α : Type} [DecidableEq κ] :
    ∀ {l : List (κ × α)} {k : κ} {v : α}, dictLookup l k = some v →
      dictInsert l k v = l := by
  intro l
  induction l with
  | nil => intro k v h; simp [dictLookup] at h
  | cons kv rest ih =>
    intro k v h
    rw [dictLookup] at h
    by_cases hk : kv.1 = k
    · rw [if_pos hk] at h
      injection h with hv
      rw [dictInsert, if_pos hk, ← hk, ← hv]
    · rw [if_neg hk] at h
      rw [dictInsert, if_neg hk, ih h]

/-- Default configs are all enabled, so the filter keeps them all. -/
theorem filter_enabled_of_default :
    ∀ (l : List (String × ExceedanceConfig)),
      (∀ kv ∈ l, kv.2 = defaultExceedanceConfig) →
      l.filter (fun kc => kc.2.enabled) = l := by
  intro l
  induction l with
  | nil => intro _; rfl
  | cons kv rest ih =>
    intro h
    have hkv : kv.2 = defaultExceedanceConfig := h kv (List.mem_cons_self kv rest)
    rw [List.filter_cons, if_pos (by rw [hkv]; rfl),
      ih (fun kv' h' => h kv' (List.mem_cons_of_mem kv h'))]

theorem sameNonConfig_trans {a b c : CustomizationSettings}
    (h1 : sameNonConfig a b) (h2 : sameNonConfig b c) : sameNonConfig a c :=
  ⟨h1.1.trans h2.1, h1.2.1.trans h2.2.1, h1.2.2.1.trans h2.2.2.1,
   h1.2.2.2.trans h2.2.2.2⟩

/-- The fallback loop only ever touches the exceedance configs. -/
theorem fallbackEnableLoop_nonconfig :
    ∀ (cols : List String) (acc : List (String × ExceedanceConfig))
      (s : CustomizationSettings),
      sameNonConfig s (fallbackEnableLoop cols acc s).2 := by
  intro cols
  induction cols with
  | nil => intro acc s; exact ⟨rfl, rfl, rfl, rfl⟩
  | cons c rest ih =>
    intro acc s
    rw [fallbackEnableLoop]
    unfold get_exceedance_config
    cases hlk : dictLookup s.exceedance_configs c with
    | some cfg =>
      dsimp only
      exact ih _ s
    | none =>
      dsimp only
      exact sameNonConfig_trans
        (⟨rfl, rfl, rfl, rfl⟩ : sameNonConfig s { s with exceedance_configs := s.exceedance_configs ++ [(c, defaultExceedanceConfig)] })
        (ih _ _)

/-- The fallback loop run from a state whose stored configs are the
original ones plus an all-default tail (the entries it has created so
far), with the accumulator equal to that tail, keeps this shape: it
ends with some all-default tail, appended both to the stored configs
and as the final accumulator.  Duplicate column names are harmless:
a column seen again is found in the tail and re-inserted with the same
default value. -/
theorem fallbackEnableLoop_freshParts :
    ∀ (cols : List String) (s0 : CustomizationSettings)
      (newPart : List (String × ExceedanceConfig)),
      (∀ c ∈ cols, dictLookup s0.exceedance_configs c = none) →
      (∀ kv ∈ newPart, kv.2 = defaultExceedanceConfig) →
      ∃ finalPart : List (String × ExceedanceConfig),
        fallbackEnableLoop cols newPart
            { s0 with exceedance_configs := s0.exceedance_configs ++ newPart } =
          (finalPart,
           { s0 with exceedance_configs := s0.exceedance_configs ++ finalPart }) ∧
        (∀ kv ∈ finalPart, kv.2 = defaultExceedanceConfig) ∧
        (finalPart = [] → newPart = [] ∧ cols = []) := by
  intro cols
  induction cols with
  | nil =>
    intro s0 np _ h2
    exact ⟨np, rfl, h2, fun h => ⟨h, rfl⟩⟩
  | cons c rest ih =>
    intro s0 np h1 h2
    rw [fallbackEnableLoop]
    have hs0c : dictLookup s0.exceedance_configs c = none :=
      h1 c (List.mem_cons_self c rest)
    have hlk2 : dictLookup ({ s0 with exceedance_configs := s0.exceedance_configs ++ np } : CustomizationSettings).exceedance_configs c = dictLookup np c := by
      dsimp only
      exact dictLookup_append_right _ hs0c
    unfold get_exceedance_config
    rw [hlk2]
    cases hnp : dictLookup np c with
    | some cfg =>
      dsimp only
      rw [dictInsert_self hnp]
      rcases ih s0 np (fun c' hc' => h1 c' (List.mem_cons_of_mem c hc')) h2 with
        ⟨F, hF, hFd, hFe⟩
      refine ⟨F, hF, hFd, fun h => ?_⟩
      rcases hFe h with ⟨hnp0, _⟩
      rw [hnp0] at hnp
      simp [dictLookup] at hnp
    | none =>
      dsimp only
      rw [dictInsert_eq_append defaultExceedanceConfig hnp, List.append_assoc]
      rcases ih s0 (np ++ [(c, defaultExceedanceConfig)])
        (fun c' hc' => h1 c' (List.mem_cons_of_mem c hc'))
        (by
          intro kv hkv
          rcases List.mem_append.mp hkv with hkv | hkv
          · exact h2 kv hkv
          · rw [List.mem_singleton] at hkv
            rw [hkv])
        with ⟨F, hF, hFd, hFe⟩
      refine ⟨F, hF, hFd, fun h => ?_⟩
      rcases hFe h with ⟨hnp0, _⟩
      exact absurd hnp0 (by simp)

theorem sameNonConfig_post (s : CustomizationSettings) (p : ParserState) :
    sameNonConfig s (postFallbackSettings s p) := by
  unfold postFallbackSettings
  split
  · exact fallbackEnableLoop_nonconfig p.standards_columns _ s
  · exact ⟨rfl, rfl, rfl, rfl⟩

theorem sameNonConfig_of_rel {s : CustomizationSettings} {p : ParserState}
    {t : CustomizationSettings} (h : settingsRel s p t) :
    sameNonConfig t (postFallbackSettings s p) := by
  rcases h with h | h
  · rw [h]; exact sameNonConfig_post s p
  · rw [h]; exact ⟨rfl, rfl, rfl, rfl⟩

theorem process_non_detect_congr {a b : CustomizationSettings}
    (h : sameNonConfig a b) (v : String) :
    process_non_detect_value a v = process_non_detect_value b v := by
  unfold process_non_detect_value
  rw [h.2.2.2]

theorem format_date_congr {a b : CustomizationSettings}
    (h : sameNonConfig a b) (d : String) :
    format_date a d = format_date b d := by
  unfold format_date
  rw [h.2.1]

theorem display_name_congr {a b : CustomizationSettings}
    (h : sameNonConfig a b) (n : String) :
    get_analyte_display_name a n = get_analyte_display_name b n := by
  unfold get_analyte_display_name
  rw [h.1]

theorem check_exceedance_core_nofb (s : CustomizationSettings) (analyte : String)
    (v : PyVal) (p : ParserState)
    (hfb : ((s.exceedance_configs.filter (fun kc => kc.2.enabled)).isEmpty
        && !p.standards_columns.isEmpty) = false) :
    check_exceedance s analyte v p =
      (checkCore p analyte v
        (s.exceedance_configs.filter (fun kc => kc.2.enabled)), s) := by
  unfold check_exceedance checkCore
  dsimp only
  rw [hfb, if_neg Bool.false_ne_true]
  split <;> rfl

theorem check_exceedance_core_fb (s : CustomizationSettings) (analyte : String)
    (v : PyVal) (p : ParserState)
    (hfb : ((s.exceedance_configs.filter (fun kc => kc.2.enabled)).isEmpty
        && !p.standards_columns.isEmpty) = true) :
    check_exceedance s analyte v p =
      (checkCore p analyte v
        (fallbackEnableLoop p.standards_columns
          (s.exceedance_configs.filter (fun kc => kc.2.enabled)) s).1,
       (fallbackEnableLoop p.standards_columns
          (s.exceedance_configs.filter (fun kc => kc.2.enabled)) s).2) := by
  unfold check_exceedance checkCore
  dsimp only
  rw [hfb, if_pos rfl]
  split <;> rfl

/-- In a `lazyStable` state, every `check_exceedance` call from any
reachable settings state returns the result computed at the
post-fallback state and lands in the post-fallback state. -/
theorem check_exceedance_stable (s : CustomizationSettings) (p : ParserState)
    (hH : lazyStable s p)
    (t : CustomizationSettings) (ht : settingsRel s p t)
    (analyte : String) (v : PyVal) :
    check_exceedance t analyte v p =
      ((check_exceedance (postFallbackSettings s p) analyte v p).1,
       postFallbackSettings s p) := by
  by_cases hA : ∃ kc ∈ s.exceedance_configs, kc.2.enabled = true
  · rcases hA with ⟨kc0, hkc0, hkc0en⟩
    have hfne : (s.exceedance_configs.filter
        (fun kc => kc.2.enabled)).isEmpty = false := by
      cases hfe : (s.exceedance_configs.filter (fun kc => kc.2.enabled)).isEmpty
      · rfl
      · exfalso
        have hmem : kc0 ∈ s.exceedance_configs.filter (fun kc => kc.2.enabled) :=
          List.mem_filter.mpr ⟨hkc0, hkc0en⟩
        rw [List.isEmpty_iff.mp hfe] at hmem
        simp at hmem
    have hpost : postFallbackSettings s p = s := by
      unfold postFallbackSettings
      rw [hfne]
      rfl
    have ht' : t = s := by
      rcases ht with h | h
      · exact h
      · rw [hpost] at h; exact h
    have hfb : ((s.exceedance_configs.filter (fun kc => kc.2.enabled)).isEmpty
        && !p.standards_columns.isEmpty) = false := by
      rw [hfne]
      rfl
    rw [ht', hpost, check_exceedance_core_nofb s analyte v p hfb]
  · have hB : ∀ c ∈ p.standards_columns,
        dictLookup s.exceedance_configs c = none := hH.resolve_left hA
    have hfe : s.exceedance_configs.filter (fun kc => kc.2.enabled) = [] := by
      rw [List.filter_eq_nil_iff]
      intro kc hkc hen
      exact hA ⟨kc, hkc, hen⟩
    by_cases hcolsE : p.standards_columns.isEmpty = true
    · have hpost : postFallbackSettings s p = s := by
        unfold postFallbackSettings
        rw [hfe, hcolsE]
        rfl
      have ht' : t = s := by
        rcases ht with h | h
        · exact h
        · rw [hpost] at h; exact h
      have hfb : ((s.exceedance_configs.filter
          (fun kc => kc.2.enabled)).isEmpty
          && !p.standards_columns.isEmpty) = false := by
        rw [hfe, hcolsE]
        rfl
      rw [ht', hpost, check_exceedance_core_nofb s analyte v p hfb]
    · have hcolsne : p.standards_columns.isEmpty = false := by
        cases h : p.standards_columns.isEmpty
        · rfl
        · exact absurd h hcolsE
      have hfbcond : ((s.exceedance_configs.filter
          (fun kc => kc.2.enabled)).isEmpty
          && !p.standards_columns.isEmpty) = true := by
        rw [hfe, hcolsne]
        rfl
      have hS0 : ({ s with exceedance_configs := s.exceedance_configs ++ [] } : CustomizationSettings) = s := by
        rw [List.append_nil]
      rcases fallbackEnableLoop_freshParts p.standards_columns s []
        hB (by intro kv hkv; simp at hkv) with ⟨F, hloop, hFdef, hFnil⟩
      rw [hS0] at hloop
      have hF_ne : F ≠ [] := by
        intro hF0
        rcases hFnil hF0 with ⟨_, hcols0⟩
        rw [hcols0] at hcolsne
        simp at hcolsne
      have hpost : postFallbackSettings s p = { s with exceedance_configs := s.exceedance_configs ++ F } := by
        unfold postFallbackSettings
        rw [hfe, hcolsne, hloop]
        rfl
      have hfilter_star : (postFallbackSettings s p).exceedance_configs.filter
          (fun kc => kc.2.enabled) = F := by
        rw [hpost]
        dsimp only
        rw [List.filter_append, hfe, filter_enabled_of_default F hFdef,
          List.nil_append]
      have hFisE : F.isEmpty = false := by
        cases hFc : F with
        | nil => exact absurd hFc hF_ne
        | cons a l => rfl
      have hfb_star : (((postFallbackSettings s p).exceedance_configs.filter
          (fun kc => kc.2.enabled)).isEmpty
          && !p.standards_columns.isEmpty) = false := by
        rw [hfilter_star, hFisE]
        rfl
      rcases ht with ht' | ht'
      · rw [ht', check_exceedance_core_fb s analyte v p hfbcond, hfe, hloop,
          check_exceedance_core_nofb (postFallbackSettings s p) analyte v p
            hfb_star, hfilter_star, hpost]
      · rw [ht', check_exceedance_core_nofb (postFallbackSettings s p)
          analyte v p hfb_star]

/-- Two folds over the same list with related starts stay related. -/
theorem foldl_rel2 {α β : Type} (R : α → α → Prop) (f : α → β → α)
    (hf : ∀ x y z, R x y → R (f x z) (f y z)) :
    ∀ (l : List β) (x y : α), R x y → R (l.foldl f x) (l.foldl f y) := by
  intro l
  induction l with
  | nil => intro x y h; exact h
  | cons z rest ih => intro x y h; exact ih _ _ (hf x y z h)

theorem evaluateResultCell_stable (s : CustomizationSettings) (p : ParserState)
    (hH : lazyStable s p)
    (t : CustomizationSettings) (ht : settingsRel s p t) (analyte raw : String) :
    (evaluateResultCell t p analyte raw).1 =
      (evaluateResultCell (postFallbackSettings s p) p analyte raw).1 ∧
    settingsRel s p (evaluateResultCell t p analyte raw).2 := by
  have hsnc : sameNonConfig t (postFallbackSettings s p) := sameNonConfig_of_rel ht
  unfold evaluateResultCell
  dsimp only
  rw [process_non_detect_congr hsnc]
  cases hpf : pyFloat (process_non_detect_value (postFallbackSettings s p) raw) with
  | none => exact ⟨rfl, ht⟩
  | some v =>
    dsimp only
    rw [check_exceedance_stable s p hH t ht analyte v]
    exact ⟨rfl, Or.inr rfl⟩

theorem withoutDepthCell_rel (s : CustomizationSettings) (p : ParserState)
    (hH : lazyStable s p) (loc analyte : String)
    (st st' : (List String × List Bool × List (Option String)) × CustomizationSettings)
    (h : st.1 = st'.1 ∧ settingsRel s p st.2 ∧ settingsRel s p st'.2) (date : String) :
    (withoutDepthCell p loc analyte st date).1 =
      (withoutDepthCell p loc analyte st' date).1 ∧
    settingsRel s p (withoutDepthCell p loc analyte st date).2 ∧
    settingsRel s p (withoutDepthCell p loc analyte st' date).2 := by
  obtain ⟨h1, h2, h3⟩ := h
  unfold withoutDepthCell
  dsimp only
  cases hres : get_result_value p loc date analyte none with
  | none => exact ⟨by dsimp only; rw [h1], h2, h3⟩
  | some raw =>
    have e1 := evaluateResultCell_stable s p hH st.2 h2 analyte raw
    have e2 := evaluateResultCell_stable s p hH st'.2 h3 analyte raw
    exact ⟨by dsimp only; rw [h1, e1.1, e2.1], e1.2, e2.2⟩

theorem withoutDepthAnalyteRow_rel (s : CustomizationSettings) (p : ParserState)
    (hH : lazyStable s p)
    (loc : String) (dates : List String)
    (acc acc' : List TagRow × CustomizationSettings)
    (h : acc.1 = acc'.1 ∧ settingsRel s p acc.2 ∧ settingsRel s p acc'.2)
    (analyteName : String) :
    (withoutDepthAnalyteRow p loc dates acc analyteName).1 =
      (withoutDepthAnalyteRow p loc dates acc' analyteName).1 ∧
    settingsRel s p (withoutDepthAnalyteRow p loc dates acc analyteName).2 ∧
    settingsRel s p (withoutDepthAnalyteRow p loc dates acc' analyteName).2 := by
  obtain ⟨h1, h2, h3⟩ := h
  unfold withoutDepthAnalyteRow
  dsimp only
  have hdn : get_analyte_display_name acc.2 analyteName =
      get_analyte_display_name acc'.2 analyteName :=
    (display_name_congr (sameNonConfig_of_rel h2) analyteName).trans
      (display_name_congr (sameNonConfig_of_rel h3) analyteName).symm
  rw [hdn]
  have hfold := foldl_rel2
    (fun x y : (List String × List Bool × List (Option String)) × CustomizationSettings =>
      x.1 = y.1 ∧ settingsRel s p x.2 ∧ settingsRel s p y.2)
    (withoutDepthCell p loc analyteName)
    (fun x y z hxy => withoutDepthCell_rel s p hH loc analyteName x y hxy z)
    dates
    (([get_analyte_display_name acc'.2 analyteName], [false], [none]), acc.2)
    (([get_analyte_display_name acc'.2 analyteName], [false], [none]), acc'.2)
    ⟨rfl, h2, h3⟩
  exact ⟨by rw [h1, hfold.1], hfold.2.1, hfold.2.2⟩

theorem create_tag_without_rel (s : CustomizationSettings) (p : ParserState)
    (hH : lazyStable s p)
    (loc : String) (dates analytes : List String)
    (t t' : CustomizationSettings)
    (ht : settingsRel s p t) (ht' : settingsRel s p t') :
    (create_tag_without_sample_depth t p loc dates analytes).1 =
      (create_tag_without_sample_depth t' p loc dates analytes).1 ∧
    settingsRel s p (create_tag_without_sample_depth t p loc dates analytes).2 ∧
    settingsRel s p (create_tag_without_sample_depth t' p loc dates analytes).2 := by
  unfold create_tag_without_sample_depth
  dsimp only
  have hmap : dates.map (format_date t) = dates.map (format_date t') :=
    List.map_congr_left (fun d _ =>
      (format_date_congr (sameNonConfig_of_rel ht) d).trans
        (format_date_congr (sameNonConfig_of_rel ht') d).symm)
  have hdh : t.date_header_text = t'.date_header_text :=
    ((sameNonConfig_of_rel ht).2.2.1).trans
      ((sameNonConfig_of_rel ht').2.2.1).symm
  rw [hmap, hdh]
  have hfold := foldl_rel2
    (fun x y : List TagRow × CustomizationSettings =>
      x.1 = y.1 ∧ settingsRel s p x.2 ∧ settingsRel s p y.2)
    (withoutDepthAnalyteRow p loc dates)
    (fun x y z hxy => withoutDepthAnalyteRow_rel s p hH loc dates x y hxy z)
    analytes ([], t) ([], t') ⟨rfl, ht, ht'⟩
  exact ⟨by rw [hfold.1], hfold.2.1, hfold.2.2⟩

theorem withDepthAnalyteRow_rel (s : CustomizationSettings) (p : ParserState)
    (hH : lazyStable s p)
    (loc date : String) (depth : Option String)
    (acc acc' : List TagRow × CustomizationSettings)
    (h : acc.1 = acc'.1 ∧ settingsRel s p acc.2 ∧ settingsRel s p acc'.2)
    (analyteName : String) :
    (withDepthAnalyteRow p loc date depth acc analyteName).1 =
      (withDepthAnalyteRow p loc date depth acc' analyteName).1 ∧
    settingsRel s p (withDepthAnalyteRow p loc date depth acc analyteName).2 ∧
    settingsRel s p (withDepthAnalyteRow p loc date depth acc' analyteName).2 := by
  obtain ⟨h1, h2, h3⟩ := h
  unfold withDepthAnalyteRow
  dsimp only
  have hdn : get_analyte_display_name acc.2 analyteName =
      get_analyte_display_name acc'.2 analyteName :=
    (display_name_congr (sameNonConfig_of_rel h2) analyteName).trans
      (display_name_congr (sameNonConfig_of_rel h3) analyteName).symm
  rw [hdn]
  cases hres : get_result_value p loc date analyteName depth with
  | none => exact ⟨by dsimp only; rw [h1], h2, h3⟩
  | some raw =>
    have e1 := evaluateResultCell_stable s p hH acc.2 h2 analyteName raw
    have e2 := evaluateResultCell_stable s p hH acc'.2 h3 analyteName raw
    exact ⟨by dsimp only; rw [h1, e1.1, e2.1], e1.2, e2.2⟩

theorem withDepthBlock_rel (s : CustomizationSettings) (p : ParserState)
    (hH : lazyStable s p)
    (loc : String) (analytes : List String)
    (acc acc' : List TagRow × CustomizationSettings)
    (h : acc.1 = acc'.1 ∧ settingsRel s p acc.2 ∧ settingsRel s p acc'.2)
    (pair : String × Option String) :
    (withDepthBlock p loc analytes acc pair).1 =
      (withDepthBlock p loc analytes acc' pair).1 ∧
    settingsRel s p (withDepthBlock p loc analytes acc pair).2 ∧
    settingsRel s p (withDepthBlock p loc analytes acc' pair).2 := by
  obtain ⟨h1, h2, h3⟩ := h
  unfold withDepthBlock
  dsimp only
  have hfd : format_date acc.2 pair.1 = format_date acc'.2 pair.1 :=
    (format_date_congr (sameNonConfig_of_rel h2) pair.1).trans
      (format_date_congr (sameNonConfig_of_rel h3) pair.1).symm
  rw [h1, hfd]
  exact foldl_rel2
    (fun x y : List TagRow × CustomizationSettings =>
      x.1 = y.1 ∧ settingsRel s p x.2 ∧ settingsRel s p y.2)
    (withDepthAnalyteRow p loc pair.1 pair.2)
    (fun x y z hxy => withDepthAnalyteRow_rel s p hH loc pair.1 pair.2 x y hxy z)
    analytes _ _ ⟨rfl, h2, h3⟩

theorem create_tag_with_rel (s : CustomizationSettings) (p : ParserState)
    (hH : lazyStable s p)
    (loc : String) (dates analytes : List String)
    (t t' : CustomizationSettings)
    (ht : settingsRel s p t) (ht' : settingsRel s p t') :
    (create_tag_with_sample_depth t p loc dates analytes).1 =
      (create_tag_with_sample_depth t' p loc dates analytes).1 ∧
    settingsRel s p (create_tag_with_sample_depth t p loc dates analytes).2 ∧
    settingsRel s p (create_tag_with_sample_depth t' p loc dates analytes).2 := by
  unfold create_tag_with_sample_depth
  dsimp only
  have hfold := foldl_rel2
    (fun x y : List TagRow × CustomizationSettings =>
      x.1 = y.1 ∧ settingsRel s p x.2 ∧ settingsRel s p y.2)
    (withDepthBlock p loc analytes)
    (fun x y z hxy => withDepthBlock_rel s p hH loc analytes x y hxy z)
    (pySortBy dateDepthKeyLt (dates.map (fun entry =>
      if entry.toList.any (fun c => c = ':') then
        ((splitOnceColon entry).1, some (splitOnceColon entry).2)
      else (entry, (none : Option String)))))
    ([], t) ([], t') ⟨rfl, ht, ht'⟩
  exact ⟨by rw [hfold.1], hfold.2.1, hfold.2.2⟩

theorem create_tag_for_location_rel (s : CustomizationSettings) (p : ParserState)
    (hH : lazyStable s p)
    (loc : String) (dates analytes : List String)
    (t t' : CustomizationSettings)
    (ht : settingsRel s p t) (ht' : settingsRel s p t') :
    (create_tag_for_location t p loc dates analytes).1 =
      (create_tag_for_location t' p loc dates analytes).1 ∧
    settingsRel s p (create_tag_for_location t p loc dates analytes).2 ∧
    settingsRel s p (create_tag_for_location t' p loc dates analytes).2 := by
  unfold create_tag_for_location
  cases hd : p.has_sample_depth
  · rw [if_neg Bool.false_ne_true]
    exact create_tag_without_rel s p hH loc dates analytes t t' ht ht'
  · rw [if_pos rfl]
    exact create_tag_with_rel s p hH loc dates analytes t t' ht ht'

theorem generateTagsStep_rel (s : CustomizationSettings) (p : ParserState)
    (hH : lazyStable s p)
    (analytes : List String)
    (acc acc' : List Tag × CustomizationSettings)
    (h : acc.1 = acc'.1 ∧ settingsRel s p acc.2 ∧ settingsRel s p acc'.2)
    (kv : String × List String) :
    (generateTagsStep p analytes acc kv).1 =
      (generateTagsStep p analytes acc' kv).1 ∧
    settingsRel s p (generateTagsStep p analytes acc kv).2 ∧
    settingsRel s p (generateTagsStep p analytes acc' kv).2 := by
  obtain ⟨h1, h2, h3⟩ := h
  unfold generateTagsStep
  dsimp only
  by_cases hkv : kv.2.isEmpty = true
  · rw [if_pos hkv, if_pos hkv]
    exact ⟨h1, h2, h3⟩
  · rw [if_neg hkv, if_neg hkv]
    have hc := create_tag_for_location_rel s p hH kv.1 kv.2 analytes
      acc.2 acc'.2 h2 h3
    exact ⟨by rw [h1, hc.1], hc.2.1, hc.2.2⟩

theorem generate_tags_rel (s : CustomizationSettings) (p : ParserState)
    (hH : lazyStable s p)
    (locs analytes dates : List String)
    (t t' : CustomizationSettings)
    (ht : settingsRel s p t) (ht' : settingsRel s p t') :
    (generate_tags t p locs analytes dates).1 =
      (generate_tags t' p locs analytes dates).1 ∧
    settingsRel s p (generate_tags t p locs analytes dates).2 ∧
    settingsRel s p (generate_tags t' p locs analytes dates).2 := by
  unfold generate_tags
  dsimp only
  exact foldl_rel2
    (fun x y : List Tag × CustomizationSettings =>
      x.1 = y.1 ∧ settingsRel s p x.2 ∧ settingsRel s p y.2)
    (generateTagsStep p analytes)
    (fun x y z hxy => generateTagsStep_rel s p hH analytes x y hxy z)
    (group_dates_by_location locs dates) ([], t) ([], t') ⟨rfl, ht, ht'⟩

/-- C5 (counterexample): tag generation is *not* idempotent from every
settings state.  With the single stored config A disabled (standards
A = 1, B = 100, result 50), the first run's fallback evaluates the
disabled A (exceeded) and lazily stores an enabled default for B; the
second run then evaluates only B (not exceeded), so the two runs'
tags differ. -/
theorem c5_counterexample :
    (generate_tags
        (generate_tags exSettingsDisabledA exParserAB ["L1"] ["X"]
          ["DATE:L1:2024-01-15"]).2
        exParserAB ["L1"] ["X"] ["DATE:L1:2024-01-15"]).1 ≠
      (generate_tags exSettingsDisabledA exParserAB ["L1"] ["X"]
        ["DATE:L1:2024-01-15"]).1 := by
  decide

/-- C5 (amended): from a `lazyStable` settings state — some stored
config enabled, or no detected standards column configured at all —
rerunning `generate_tags` on the settings returned by a first run
yields the same list of tags: the lazy population happening inside the
first run cannot change any later exceedance decision. -/
theorem c5_generate_tags_idempotent (s : CustomizationSettings) (p : ParserState)
    (locs analytes dates : List String)
    (hH : lazyStable s p) :
    (generate_tags (generate_tags s p locs analytes dates).2
        p locs analytes dates).1 =
      (generate_tags s p locs analytes dates).1 := by
  have h1 := generate_tags_rel s p hH locs analytes dates s s
    (Or.inl rfl) (Or.inl rfl)
  have h2 := generate_tags_rel s p hH locs analytes dates
    (generate_tags s p locs analytes dates).2 s h1.2.1 (Or.inl rfl)
  exact h2.1

/-- C5 (witness): with both stored configs enabled the state is
`lazyStable`, and the rerun reproduces the first run's tags. -/
theorem c5_witness :
    lazyStable exSettingsEnabledAB exParserAB ∧
    (generate_tags
        (generate_tags exSettingsEnabledAB exParserAB ["L1"] ["X"]
          ["DATE:L1:2024-01-15"]).2
        exParserAB ["L1"] ["X"] ["DATE:L1:2024-01-15"]).1 =
      (generate_tags exSettingsEnabledAB exParserAB ["L1"] ["X"]
        ["DATE:L1:2024-01-15"]).1 :=
  ⟨Or.inl ⟨("A", defaultExceedanceConfig), by decide, rfl⟩,
   c5_generate_tags_idempotent exSettingsEnabledAB exParserAB
     ["L1"] ["X"] ["DATE:L1:2024-01-15"]
     (Or.inl ⟨("A", defaultExceedanceConfig), by decide, rfl⟩)⟩

/-! # Parallel-array lemmas for claim C10 -/

/-- A fold preserves any invariant its step preserves. -/
theorem foldl_inv {α β : Type} (R : α → Prop) (f : α → β → α)
    (hf : ∀ x z, R x → R (f x z)) :
    ∀ (l : List β) (x : α), R x → R (l.foldl f x) := by
  intro l
  induction l with
  | nil => intro x h; exact h
  | cons z rest ih => intro x h; exact ih _ (hf x z h)

/-- `TagRow.__post_init__` always leaves the labels list at the length
of `values`; the highlight list keeps whatever length was passed. -/
theorem mkTagRow_ok (n : String) (vs : List String) (hl : List Bool)
    (ex : List (Option String)) (h : vs.length = hl.length) :
    rowOK (mkTagRow n vs hl ex) := by
  unfold mkTagRow rowOK
  dsimp only
  refine ⟨h, ?_⟩
  split
  · rw [List.length_replicate]
  · next hcond =>
    simp only [Bool.or_eq_true, not_or] at hcond
    have := hcond.2
    simp only [decide_eq_true_eq] at this
    omega

theorem withoutDepthCell_lens (p : ParserState) (loc analyte : String)
    (st : (List String × List Bool × List (Option String)) × CustomizationSettings)
    (h : st.1.1.length = st.1.2.1.length ∧ st.1.1.length = st.1.2.2.length)
    (date : String) :
    (withoutDepthCell p loc analyte st date).1.1.length =
      (withoutDepthCell p loc analyte st date).1.2.1.length ∧
    (withoutDepthCell p loc analyte st date).1.1.length =
      (withoutDepthCell p loc analyte st date).1.2.2.length := by
  unfold withoutDepthCell
  dsimp only
  obtain ⟨ha, hb⟩ := h
  cases hres : get_result_value p loc date analyte none with
  | none =>
    refine ⟨?_, ?_⟩ <;>
      (simp only [List.length_append, List.length_cons, List.length_nil]; omega)
  | some raw =>
    refine ⟨?_, ?_⟩ <;>
      (simp only [List.length_append, List.length_cons, List.length_nil]; omega)

theorem withoutDepthAnalyteRow_rowsOK (p : ParserState) (loc : String)
    (dates : List String) (acc : List TagRow × CustomizationSettings)
    (h : ∀ r ∈ acc.1, rowOK r) (analyteName : String) :
    ∀ r ∈ (withoutDepthAnalyteRow p loc dates acc analyteName).1, rowOK r := by
  unfold withoutDepthAnalyteRow
  dsimp only
  intro r hr
  rcases List.mem_append.mp hr with hr | hr
  · exact h r hr
  · have hlen := foldl_inv
      (fun x : (List String × List Bool × List (Option String)) × CustomizationSettings =>
        x.1.1.length = x.1.2.1.length ∧ x.1.1.length = x.1.2.2.length)
      (withoutDepthCell p loc analyteName)
      (fun x z hx => withoutDepthCell_lens p loc analyteName x hx z)
      dates
      (([get_analyte_display_name acc.2 analyteName], [false], [none]), acc.2)
      ⟨rfl, rfl⟩
    rw [List.mem_singleton] at hr
    rw [hr]
    exact mkTagRow_ok _ _ _ _ hlen.1

theorem create_tag_without_rowsOK (s : CustomizationSettings) (p : ParserState)
    (loc : String) (dates analytes : List String) :
    ∀ r ∈ (create_tag_without_sample_depth s p loc dates analytes).1.get_all_rows,
      rowOK r := by
  unfold create_tag_without_sample_depth Tag.get_all_rows
  dsimp only
  intro r hr
  rcases List.mem_cons.mp hr with hr | hr
  · rw [hr]
    exact mkTagRow_ok _ _ _ _ (by rw [List.length_replicate])
  rcases List.mem_cons.mp hr with hr | hr
  · rw [hr]
    exact mkTagRow_ok _ _ _ _ (by rw [List.length_replicate])
  · exact foldl_inv
      (fun x : List TagRow × CustomizationSettings => ∀ r ∈ x.1, rowOK r)
      (withoutDepthAnalyteRow p loc dates)
      (fun x z hx => withoutDepthAnalyteRow_rowsOK p loc dates x hx z)
      analytes ([], s) (by intro r hr; simp at hr) r hr

theorem withDepthAnalyteRow_rowsOK (p : ParserState) (loc date : String)
    (depth : Option String) (acc : List TagRow × CustomizationSettings)
    (h : ∀ r ∈ acc.1, rowOK r) (analyteName : String) :
    ∀ r ∈ (withDepthAnalyteRow p loc date depth acc analyteName).1, rowOK r := by
  unfold withDepthAnalyteRow
  dsimp only
  intro r hr
  cases hres : get_result_value p loc date analyteName depth with
  | none =>
    rw [hres] at hr
    dsimp only at hr
    rcases List.mem_append.mp hr with hr | hr
    · exact h r hr
    · rw [List.mem_singleton] at hr
      rw [hr]
      exact mkTagRow_ok _ _ _ _ rfl
  | some raw =>
    rw [hres] at hr
    dsimp only at hr
    rcases List.mem_append.mp hr with hr | hr
    · exact h r hr
    · rw [List.mem_singleton] at hr
      rw [hr]
      exact mkTagRow_ok _ _ _ _ rfl

theorem withDepthBlock_rowsOK (p : ParserState) (loc : String)
    (analytes : List String) (acc : List TagRow × CustomizationSettings)
    (h : ∀ r ∈ acc.1, rowOK r) (pair : String × Option String) :
    ∀ r ∈ (withDepthBlock p loc analytes acc pair).1, rowOK r := by
  unfold withDepthBlock
  dsimp only
  have hbase : ∀ r ∈ acc.1 ++
      [mkTagRow "" ["Location ID:", loc] [false, false] [none, none],
       mkTagRow "" ["Date Sampled:", format_date acc.2 pair.1]
         [false, false] [none, none]], rowOK r := by
    intro r hr
    rcases List.mem_append.mp hr with hr | hr
    · exact h r hr
    · rcases List.mem_cons.mp hr with hr | hr
      · rw [hr]; exact mkTagRow_ok _ _ _ _ rfl
      · rw [List.mem_singleton] at hr
        rw [hr]; exact mkTagRow_ok _ _ _ _ rfl
  refine foldl_inv
    (fun x : List TagRow × CustomizationSettings => ∀ r ∈ x.1, rowOK r)
    (withDepthAnalyteRow p loc pair.1 pair.2)
    (fun x z hx => withDepthAnalyteRow_rowsOK p loc pair.1 pair.2 x hx z)
    analytes _ ?_
  cases hdep : pair.2 with
  | none => exact hbase
  | some d =>
    dsimp only
    split
    · intro r hr
      rcases List.mem_append.mp hr with hr | hr
      · exact hbase r hr
      · rw [List.mem_singleton] at hr
        rw [hr]; exact mkTagRow_ok _ _ _ _ rfl
    · exact hbase

theorem create_tag_with_rowsOK (s : CustomizationSettings) (p : ParserState)
    (loc : String) (dates analytes : List String) :
    ∀ r ∈ (create_tag_with_sample_depth s p loc dates analytes).1.get_all_rows,
      rowOK r := by
  unfold create_tag_with_sample_depth Tag.get_all_rows
  dsimp only
  have hall := foldl_inv
    (fun x : List TagRow × CustomizationSettings => ∀ r ∈ x.1, rowOK r)
    (withDepthBlock p loc analytes)
    (fun x z hx => withDepthBlock_rowsOK p loc analytes x hx z)
    (pySortBy dateDepthKeyLt (dates.map (fun entry =>
      if entry.toList.any (fun c => c = ':') then
        ((splitOnceColon entry).1, some (splitOnceColon entry).2)
      else (entry, (none : Option String)))))
    ([], s) (by intro r hr; simp at hr)
  intro r hr
  rcases List.mem_cons.mp hr with hr | hr
  · rw [hr]
    cases hb : (((pySortBy dateDepthKeyLt (dates.map (fun entry =>
        if entry.toList.any (fun c => c = ':') then
          ((splitOnceColon entry).1, some (splitOnceColon entry).2)
        else (entry, (none : Option String))))).foldl
          (withDepthBlock p loc analytes) ([], s))).1 with
    | nil => exact mkTagRow_ok _ _ _ _ rfl
    | cons a l =>
      exact hall a (by rw [hb]; exact List.mem_cons_self a l)
  · exact hall r (List.mem_of_mem_tail hr)

theorem create_tag_for_location_rowsOK (s : CustomizationSettings)
    (p : ParserState) (loc : String) (dates analytes : List String) :
    ∀ r ∈ (create_tag_for_location s p loc dates analytes).1.get_all_rows,
      rowOK r := by
  unfold create_tag_for_location
  split
  · exact create_tag_with_rowsOK s p loc dates analytes
  · exact create_tag_without_rowsOK s p loc dates analytes

theorem generateTagsStep_rowsOK (p : ParserState) (analytes : List String)
    (acc : List Tag × CustomizationSettings)
    (h : ∀ tag ∈ acc.1, ∀ r ∈ tag.get_all_rows, rowOK r)
    (kv : String × List String) :
    ∀ tag ∈ (generateTagsStep p analytes acc kv).1,
      ∀ r ∈ tag.get_all_rows, rowOK r := by
  unfold generateTagsStep
  dsimp only
  split
  · exact h
  · intro tag htag
    rcases List.mem_append.mp htag with htag | htag
    · exact h tag htag
    · rw [List.mem_singleton] at htag
      rw [htag]
      exact create_tag_for_location_rowsOK acc.2 p kv.1 kv.2 analytes

/-- C10: every row of every generated tag — header and analyte rows, in
both layouts — carries exactly one highlight flag and one (possibly
null) exceeded-standard label per cell value. -/
theorem c10_parallel_arrays (s : CustomizationSettings) (p : ParserState)
    (locs analytes dates : List String) (tag : Tag)
    (htag : tag ∈ (generate_tags s p locs analytes dates).1)
    (row : TagRow) (hrow : row ∈ tag.get_all_rows) :
    row.values.length = row.is_highlighted.length ∧
    row.values.length = row.exceeded_standards_cols.length := by
  have hall := foldl_inv
    (fun x : List Tag × CustomizationSettings =>
      ∀ tag ∈ x.1, ∀ r ∈ tag.get_all_rows, rowOK r)
    (generateTagsStep p analytes)
    (fun x z hx => generateTagsStep_rowsOK p analytes x hx z)
    (group_dates_by_location locs dates) ([], s)
    (by intro tag htag; simp at htag)
  exact hall tag htag row hrow

/-- C10 (witness): a generated tag of the concrete example and its
first row satisfy the parallel-array invariant. -/
theorem c10_witness :
    ((generate_tags exSettingsEnabledAB exParserAB ["L1"] ["X"]
        ["DATE:L1:2024-01-15"]).1.headD emptyTag) ∈
      (generate_tags exSettingsEnabledAB exParserAB ["L1"] ["X"]
        ["DATE:L1:2024-01-15"]).1 ∧
    (((generate_tags exSettingsEnabledAB exParserAB ["L1"] ["X"]
        ["DATE:L1:2024-01-15"]).1.headD emptyTag).get_all_rows.headD emptyRow) ∈
      ((generate_tags exSettingsEnabledAB exParserAB ["L1"] ["X"]
        ["DATE:L1:2024-01-15"]).1.headD emptyTag).get_all_rows ∧
    ((((generate_tags exSettingsEnabledAB exParserAB ["L1"] ["X"]
        ["DATE:L1:2024-01-15"]).1.headD emptyTag).get_all_rows.headD
          emptyRow).values.length =
      (((generate_tags exSettingsEnabledAB exParserAB ["L1"] ["X"]
        ["DATE:L1:2024-01-15"]).1.headD emptyTag).get_all_rows.headD
          emptyRow).is_highlighted.length) ∧
    ((((generate_tags exSettingsEnabledAB exParserAB ["L1"] ["X"]
        ["DATE:L1:2024-01-15"]).1.headD emptyTag).get_all_rows.headD
          emptyRow).values.length =
      (((generate_tags exSettingsEnabledAB exParserAB ["L1"] ["X"]
        ["DATE:L1:2024-01-15"]).1.headD emptyTag).get_all_rows.headD
          emptyRow).exceeded_standards_cols.length) :=
  ⟨by decide, by decide,
   (c10_parallel_arrays exSettingsEnabledAB exParserAB ["L1"] ["X"]
     ["DATE:L1:2024-01-15"]
     ((generate_tags exSettingsEnabledAB exParserAB ["L1"] ["X"]
        ["DATE:L1:2024-01-15"]).1.headD emptyTag) (by decide)
     (((generate_tags exSettingsEnabledAB exParserAB ["L1"] ["X"]
        ["DATE:L1:2024-01-15"]).1.headD emptyTag).get_all_rows.headD emptyRow)
     (by decide)).1,
   (c10_parallel_arrays exSettingsEnabledAB exParserAB ["L1"] ["X"]
     ["DATE:L1:2024-01-15"]
     ((generate_tags exSettingsEnabledAB exParserAB ["L1"] ["X"]
        ["DATE:L1:2024-01-15"]).1.headD emptyTag) (by decide)
     (((generate_tags exSettingsEnabledAB exParserAB ["L1"] ["X"]
        ["DATE:L1:2024-01-15"]).1.headD emptyTag).get_all_rows.headD emptyRow)
     (by decide)).2⟩

end TagGen
